import Mathlib

set_option linter.unusedVariables false

/-! Verification of the openbatch schema-normalization core and batch-request layer.
JSON documents are modelled as trees whose objects are insertion-ordered association
lists, mirroring Python dictionaries. -/

/-- JSON-compatible tree value: the Schema Node of the normalizer data model.
Objects are modelled as insertion-ordered association lists of string keys. -/
inductive JValue where
  | null
  | bool (b : Bool)
  | num (n : Int)
  | str (s : String)
  | arr (elems : List JValue)
  | obj (fields : List (String × JValue))

/-- Field list of a JSON object (Python dict contents, in insertion order). -/
abbrev JFields := List (String × JValue)

/-- Lookup of a key in an object's field list (Python dict access). -/
def lookupKey (k : String) : JFields → Option JValue
  | [] => none
  | (k', v) :: rest => if k' = k then some v else lookupKey k rest

/-- Python dict assignment: replace the value at an existing key in place, else append. -/
def setKey : JFields → String → JValue → JFields
  | [], k, v => [(k, v)]
  | (k', v') :: rest, k, v => if k' = k then (k, v) :: rest else (k', v') :: setKey rest k v

/-- Python dict key deletion. -/
def eraseKey : JFields → String → JFields
  | [], _ => []
  | (k', v) :: rest, k => if k' = k then eraseKey rest k else (k', v) :: eraseKey rest k

/-- Python dict double-splat merge of an overlay into a base dict: every entry of the
overlay is assigned into the base in order, so overlay values win on key collision. -/
def mergeFields (base : JFields) : JFields → JFields
  | [] => base
  | (k, v) :: rest => mergeFields (setKey base k v) rest

/-- Helper has_more_than_n_keys of the utility module: whether a dict has more than n keys. -/
def has_more_than_n_keys (fs : JFields) (n : Nat) : Bool :=
  decide (n < fs.length)

/-- Error taxonomy of the core (spec section 7): a malformed reference string, or a
reference path that does not resolve, carrying the failing path and segment. The
last two constructors are embedding artifacts: unresolvedTargetNotObject stands for
the runtime failure of merging a non-dict resolution target, and outOfFuel stands
for the unbounded recursion of the unguarded source on cyclic references. -/
inductive NormError where
  | malformedReference (ref : String)
  | referenceNotFound (segments : List String) (missing : String)
  | unresolvedTargetNotObject
  | outOfFuel

/-- Splitting of a character list on the slash character, matching Python str.split. -/
def splitSegs (acc : List Char) : List Char → List String
  | [] => [String.mk acc.reverse]
  | '/' :: rest => String.mk acc.reverse :: splitSegs [] rest
  | c :: rest => splitSegs (c :: acc) rest

/-- Walk of the document from the root, one path segment at a time, indexing into
object-shaped maps by key; a missing segment fails with referenceNotFound carrying
the failing path and segment (spec section 4.1). -/
def walkPath : JValue → List String → List String → Except NormError JValue
  | v, [], _ => .ok v
  | .obj fs, s :: rest, seen =>
      match lookupKey s fs with
      | some v => walkPath v rest (seen ++ [s])
      | none => .error (.referenceNotFound (seen ++ [s]) s)
  | _, s :: _, seen => .error (.referenceNotFound (seen ++ [s]) s)

/-- Modelled from the spec: the Reference Resolver resolve(root, ref) of section 4.1,
realizing the function resolve_ref of the module _utils, which is absent from the
sources (only its tests and callers are present). The reference must begin with the
local-document-pointer prefix, a hash followed by a slash, else the resolver fails
with malformedReference carrying the offending string; otherwise the remainder is
split on slashes and the root is walked one segment at a time. Plain string match
on segments, with no JSON Pointer escape handling, per the spec's stated
simplification. -/
def resolve_ref (root : JValue) (ref : String) : Except NormError JValue :=
  match ref.toList with
  | '#' :: '/' :: rest => walkPath root (splitSegs [] rest) []
  | _ => .error (.malformedReference ref)

/-- Mapping of a fallible function over a list, stopping at the first error. -/
def exceptMapList (f : JValue → Except NormError JValue) :
    List JValue → Except NormError (List JValue)
  | [] => .ok []
  | x :: xs =>
    match f x with
    | .error e => .error e
    | .ok y =>
      match exceptMapList f xs with
      | .error e => .error e
      | .ok ys => .ok (y :: ys)

/-- Mapping of a fallible function over the values of a field list, keeping keys. -/
def exceptMapVals (f : JValue → Except NormError JValue) :
    JFields → Except NormError JFields
  | [] => .ok []
  | (k, v) :: rest =>
    match f v with
    | .error e => .error e
    | .ok w =>
      match exceptMapVals f rest with
      | .error e => .error e
      | .ok ws => .ok ((k, w) :: ws)

/-- View of an optional value as an object's field list, none otherwise. -/
def asObj : Option JValue → Option JFields
  | some (.obj fs) => some fs
  | _ => none

/-- View of an optional value as an array's element list, none otherwise. -/
def asArr : Option JValue → Option (List JValue)
  | some (.arr xs) => some xs
  | _ => none

/-- Whether the node's type key holds exactly the given string. -/
def typeIs (t : String) (fs : JFields) : Bool :=
  match lookupKey "type" fs with
  | some (.str s) => decide (s = t)
  | _ => false

/-- Structural identification of an object schema: declares type object or carries a
properties key (spec section 3 table and section 4.2 dispatch rule 2). -/
def isObjectShaped (fs : JFields) : Bool :=
  typeIs "object" fs || (lookupKey "properties" fs).isSome

/-- Structural identification of an array schema: declares type array or carries an
items key (spec section 4.2 dispatch rule 3). -/
def isArrayShaped (fs : JFields) : Bool :=
  typeIs "array" fs || (lookupKey "items" fs).isSome

/-- Key list of the node's properties map, empty when no properties map is present. -/
def propKeysOf (fs : JFields) : List String :=
  match asObj (lookupKey "properties" fs) with
  | some pf => pf.map Prod.fst
  | none => []

/-- Normalization of every value under one definitions-container key, keyed by its own
name, leaving the node unchanged when the key is absent or not a map (spec section
4.2: definitions and dollar-defs values are normalized against the same root). -/
def normDefsKey (f : JValue → Except NormError JValue) (k : String) (fs : JFields) :
    Except NormError JFields :=
  match asObj (lookupKey k fs) with
  | some dfs =>
    match exceptMapVals f dfs with
    | .error e => .error e
    | .ok dfs' => .ok (setKey fs k (.obj dfs'))
  | none => .ok fs

/-- Object-branch rewrite: recursively normalize every value in properties, then set
required to the full, current key list of properties (spec section 4.2 rule 2). -/
def normPropsKey (f : JValue → Except NormError JValue) (fs : JFields) :
    Except NormError JFields :=
  match asObj (lookupKey "properties" fs) with
  | some pf =>
    match exceptMapVals f pf with
    | .error e => .error e
    | .ok pf' =>
        .ok (setKey (setKey fs "properties" (.obj pf')) "required"
              (.arr ((propKeysOf fs).map JValue.str)))
  | none => .ok (setKey fs "required" (.arr ((propKeysOf fs).map JValue.str)))

/-- Closed-by-default rewrite: set additionalProperties to false unless the node
already defines that key explicitly (spec section 4.2 rule 2). -/
def ensureAdditionalProperties (fs : JFields) : JFields :=
  match lookupKey "additionalProperties" fs with
  | some _ => fs
  | none => setKey fs "additionalProperties" (.bool false)

/-- Array-branch rewrite: recursively normalize the items value (spec rule 3). -/
def normItemsKey (f : JValue → Except NormError JValue) (fs : JFields) :
    Except NormError JFields :=
  match lookupKey "items" fs with
  | some v =>
    match f v with
    | .error e => .error e
    | .ok v' => .ok (setKey fs "items" v')
  | none => .ok fs

/-- Branch-sequence rewrite for anyOf and allOf: normalize each element of the
sequence independently, preserving order and length (spec rules 4 and 5). -/
def normListKey (f : JValue → Except NormError JValue) (k : String) (fs : JFields) :
    Except NormError JFields :=
  match asArr (lookupKey k fs) with
  | some xs =>
    match exceptMapList f xs with
    | .error e => .error e
    | .ok xs' => .ok (setKey fs k (.arr xs'))
  | none => .ok fs

/-- Rewrite of a non-reference object node: definitions containers first, then exactly
one of the object / array / anyOf / allOf branches in the spec's precedence order,
else the node is a leaf and only its definitions containers were rewritten. -/
def normalizeFields (f : JValue → Except NormError JValue) (fs : JFields) :
    Except NormError JFields :=
  match normDefsKey f "definitions" fs with
  | .error e => .error e
  | .ok fs2 =>
    match normDefsKey f "$defs" fs2 with
    | .error e => .error e
    | .ok fs3 =>
      if isObjectShaped fs3 then
        match normPropsKey f fs3 with
        | .error e => .error e
        | .ok fs4 => .ok (ensureAdditionalProperties fs4)
      else if isArrayShaped fs3 then
        normItemsKey f fs3
      else if (lookupKey "anyOf" fs3).isSome then
        normListKey f "anyOf" fs3
      else if (lookupKey "allOf" fs3).isSome then
        normListKey f "allOf" fs3
      else
        .ok fs3

/-- Modelled from the spec: the Strict Schema Normalizer normalize(node, path, root) of
spec sections 4.2 and 6, realizing the function ensure_strict_json_schema of the
module _utils, which is absent from the sources (only its tests and callers are
present). Dispatch follows the spec's precedence order: a node containing a string
valued ref key is handled first (a bare reference is returned unchanged, a reference
with sibling keys is unrolled: the target is resolved, merged under the sibling keys,
the ref key dropped, and the merged node renormalized); otherwise definitions and
dollar-defs values are normalized against the same root, then exactly one of the
object / array / anyOf / allOf branches applies, else the node is a leaf returned
unchanged. A non-string ref value is rejected as a malformed reference. The fuel
argument is an embedding artifact standing for the source's unguarded recursion on
cyclic references: it decreases on every recursive call and its exhaustion reports
outOfFuel, an error no source behavior maps to. The path argument carries no
transformation logic per spec section 4.2 and is passed through unchanged. -/
def ensure_strict_json_schema : Nat → JValue → List String → JValue →
    Except NormError JValue
  | 0, _, _, _ => .error .outOfFuel
  | n + 1, node, path, root =>
    match node with
    | .obj fs =>
      match lookupKey "$ref" fs with
      | some (.str ref) =>
          if has_more_than_n_keys fs 1 then
            match resolve_ref root ref with
            | .ok (.obj resolvedFs) =>
                ensure_strict_json_schema n
                  (.obj (eraseKey (mergeFields resolvedFs fs) "$ref")) path root
            | .ok _ => .error .unresolvedTargetNotObject
            | .error e => .error e
          else .ok (.obj fs)
      | some _ => .error (.malformedReference "")
      | none =>
          match normalizeFields (fun v => ensure_strict_json_schema n v path root) fs with
          | .ok fs' => .ok (.obj fs')
          | .error e => .error e
    | v => .ok v

/-- Lookup of a key on a value known to be an object, none otherwise. -/
def oLookup (k : String) : JValue → Option JValue
  | .obj fs => lookupKey k fs
  | _ => none

/-- Values stored under one definitions-container key of a node. -/
def defsChildren (k : String) (fs : JFields) : List JValue :=
  match asObj (lookupKey k fs) with
  | some dfs => dfs.map Prod.snd
  | none => []

/-- Values of the node's properties map. -/
def propsChildren (fs : JFields) : List JValue :=
  match asObj (lookupKey "properties" fs) with
  | some pf => pf.map Prod.snd
  | none => []

/-- The node's items value, as a singleton list. -/
def itemsChildren (fs : JFields) : List JValue :=
  match lookupKey "items" fs with
  | some v => [v]
  | none => []

/-- Elements of the node's branch sequence under the given key. -/
def listChildren (k : String) (fs : JFields) : List JValue :=
  match asArr (lookupKey k fs) with
  | some xs => xs
  | none => []

/-- Children of a node along the single branch the normalizer's precedence dispatch
selects (spec section 4.2: exactly one of the object, array, anyOf, allOf branches
applies at each node). -/
def branchChildren (fs : JFields) : List JValue :=
  if isObjectShaped fs then propsChildren fs
  else if isArrayShaped fs then itemsChildren fs
  else if (lookupKey "anyOf" fs).isSome then listChildren "anyOf" fs
  else if (lookupKey "allOf" fs).isSome then listChildren "allOf" fs
  else []

/-- Children of a node under the normalizer's own traversal: none for a reference
node, else the definitions and dollar-defs values together with the children of the
dispatch-selected branch. -/
def nodeChildren (fs : JFields) : List JValue :=
  if (lookupKey "$ref" fs).isSome then []
  else defsChildren "definitions" fs ++ defsChildren "$defs" fs ++ branchChildren fs

/-- Extraction of a list of strings from a list of JSON values, none when some
entry is not a string. -/
def stringEntries : List JValue → Option (List String)
  | [] => some []
  | .str s :: rest => (stringEntries rest).map (fun l => s :: l)
  | _ :: _ => none

/-- Order-insensitive equality of two string lists. -/
def eqAsSets (xs ys : List String) : Bool :=
  xs.all (fun x => ys.contains x) && ys.all (fun y => xs.contains y)

/-- Required-completeness at a single node: a required key is present, holds a list
of strings, and that list equals the key set of the properties map as a set. -/
def requiredMatchesProps (fs : JFields) : Bool :=
  match lookupKey "required" fs with
  | some (.arr rs) =>
    match stringEntries rs with
    | some names => eqAsSets names (propKeysOf fs)
    | none => false
  | _ => false

/-- Document-wide invariant checker over the normalizer's traversal: the local check
holds at every non-reference object node reachable along definitions containers and
the dispatch-selected branch, to the given depth bound. -/
def schemaInv (localOk : JFields → Bool) : Nat → JValue → Bool
  | 0, _ => false
  | n + 1, .obj fs =>
      (if (lookupKey "$ref" fs).isSome then true else localOk fs)
        && (nodeChildren fs).all (fun c => schemaInv localOk n c)
  | _ + 1, _ => true

/-- Required-completeness local check: every object-shaped node has required equal,
as a set, to the key set of its properties map. -/
def requiredLocalOk (fs : JFields) : Bool :=
  !isObjectShaped fs || requiredMatchesProps fs

/-- Document-wide required-completeness invariant. -/
def requiredInv : Nat → JValue → Bool := schemaInv requiredLocalOk

/-- Closed-by-default local check: every object-shaped node carries an explicit
additionalProperties key. -/
def apLocalOk (fs : JFields) : Bool :=
  !isObjectShaped fs || (lookupKey "additionalProperties" fs).isSome

/-- Document-wide additionalProperties-presence invariant. -/
def apInv : Nat → JValue → Bool := schemaInv apLocalOk

/-- Error kinds of the Python runtime surfacing in the request layer: attribute,
type, value and key errors, plus a lift of the normalizer's own error kind. -/
inductive PyError where
  | attributeError (msg : String)
  | typeError (msg : String)
  | valueError (msg : String)
  | keyError (msg : String)
  | normError (e : NormError)

/-- Abstraction of a pydantic model class as the request layer uses it: the class
name, and the JSON schema document its model_json_schema method produces. -/
structure PydModel where
  name : String
  jsonSchema : JValue

/-- Modelled from the spec: type_to_json_schema of the module _utils, absent from
the sources. Per spec section 6, the normalizer entry point is invoked once per
declared output type on the document the type produces, with an empty path and the
document itself as root. -/
def type_to_json_schema (fuel : Nat) (m : PydModel) : Except NormError JValue :=
  ensure_strict_json_schema fuel m.jsonSchema [] m.jsonSchema

/-- The output-format descriptor built by builder.py lines 25-32 and model.py lines
133-139: type json_schema, the model's class name, the normalized schema document,
and strict true. -/
def outputFormatDescriptor (name : String) (schema : JValue) : JValue :=
  .obj [("type", .str "json_schema"), ("name", .str name),
        ("schema", schema), ("strict", .bool true)]

/-- State of a BatchJobBuilder (builder.py): its accumulated request body options. -/
structure BatchJobBuilder where
  body_options : JFields

/-- Embedding of BatchJobBuilder.enforce_structured_output (builder.py lines 22-33):
produce the type's JSON schema, normalize it with empty path and the schema itself
as root, and store the output-format descriptor under the text key of the body. -/
def BatchJobBuilder.enforce_structured_output (fuel : Nat) (b : BatchJobBuilder)
    (response_model : PydModel) : Except NormError BatchJobBuilder :=
  match ensure_strict_json_schema fuel response_model.jsonSchema []
      response_model.jsonSchema with
  | .error e => .error e
  | .ok schema =>
      .ok { body_options := setKey b.body_options "text"
              (.obj [("format", outputFormatDescriptor response_model.name schema)]) }

/-- Fields of a ResponsesRequest relevant to structured output (model.py). -/
structure ResponsesRequest where
  model : String
  input : Option JValue
  text : Option JValue

/-- Embedding of ResponsesRequest.set_output_structure (model.py lines 131-140):
normalize the output type's schema and store the output-format descriptor wrapped
in a format object on the text field. -/
def ResponsesRequest.set_output_structure (fuel : Nat) (r : ResponsesRequest)
    (output_type : PydModel) : Except NormError ResponsesRequest :=
  match type_to_json_schema fuel output_type with
  | .error e => .error e
  | .ok schema =>
      .ok { r with text := some (.obj [("format",
              outputFormatDescriptor output_type.name schema)]) }

/-- Collector sub-object for the responses endpoint (collector.py). -/
structure Responses where
  batch_file_path : String

/-- Collector sub-object for the chat-completions endpoint (collector.py). -/
structure Completions where
  batch_file_path : String

/-- Collector sub-object for the embeddings endpoint (collector.py). -/
structure Embeddings where
  batch_file_path : String

/-- Python semantics of an attribute assignment on a tuple value: tuples are
immutable builtins without an attribute dict, so every such assignment raises
AttributeError naming the attribute. -/
def tupleSetAttr (attr : String) (value : Completions) : Except PyError Unit :=
  .error (.attributeError ("tuple object has no attribute " ++ attr))

/-- The RequestCollector aggregate (collector.py lines 58-63). -/
structure RequestCollector where
  responses : Responses
  chat : Unit
  embeddings : Embeddings

/-- Embedding of RequestCollector.__init__ (collector.py lines 58-63): assign
self.responses, assign self.chat = () (the empty tuple), then attempt
self.chat.completions = Completions(batch_file_path), an attribute assignment on a
tuple value, then assign self.embeddings. -/
def RequestCollector.init (batch_file_path : String) : Except PyError RequestCollector :=
  let responses := Responses.mk batch_file_path
  let chat : Unit := ()
  match tupleSetAttr "completions" (Completions.mk batch_file_path) with
  | .error e => .error e
  | .ok _ =>
      let embeddings := Embeddings.mk batch_file_path
      .ok { responses := responses, chat := chat, embeddings := embeddings }

/-- One piece of a Python format string: a literal or a named placeholder. -/
inductive FmtPart where
  | lit (s : String)
  | var (name : String)

/-- A prompt message template with placeholder content (model.py Message before
formatting). -/
structure TemplateMessage where
  role : String
  content : List FmtPart

/-- A formatted prompt message (model.py Message). -/
structure Message where
  role : String
  content : String

/-- Message.serialize (model.py lines 17-18). -/
def Message.serialize (m : Message) : JValue :=
  .obj [("role", .str m.role), ("content", .str m.content)]

/-- Lookup in a string-to-string mapping, first occurrence. -/
def lookupStr (k : String) : List (String × String) → Option String
  | [] => none
  | (k', v) :: rest => if k' = k then some v else lookupStr k rest

/-- Python str.format over a parsed template: substitute each placeholder from the
mapping, raising KeyError on a missing placeholder name. -/
def formatContent (vals : List (String × String)) : List FmtPart → Except PyError String
  | [] => .ok ""
  | .lit s :: rest =>
    match formatContent vals rest with
    | .error e => .error e
    | .ok r => .ok (s ++ r)
  | .var nm :: rest =>
    match lookupStr nm vals with
    | some v =>
      match formatContent vals rest with
      | .error e => .error e
      | .ok r => .ok (v ++ r)
    | none => .error (.keyError nm)

/-- A prompt template (model.py PromptTemplate). -/
structure PromptTemplate where
  messages : List TemplateMessage

/-- Formatting every message of a template against a value mapping. -/
def formatMessages (vals : List (String × String)) :
    List TemplateMessage → Except PyError (List Message)
  | [] => .ok []
  | m :: rest =>
    match formatContent vals m.content with
    | .error e => .error e
    | .ok c =>
      match formatMessages vals rest with
      | .error e => .error e
      | .ok ms => .ok ({ role := m.role, content := c } :: ms)

/-- PromptTemplate.format (model.py lines 24-29). -/
def PromptTemplate.format (pt : PromptTemplate) (vals : List (String × String)) :
    Except PyError (List Message) :=
  formatMessages vals pt.messages

/-- A reusable server-side prompt reference (model.py ReusablePrompt). -/
structure ReusablePrompt where
  id : String
  version : String

/-- The prompt argument of the manager: a template or a reusable prompt. -/
inductive Prompt where
  | template (t : PromptTemplate)
  | reusable (r : ReusablePrompt)

/-- Which generation-request class a request object belongs to. -/
inductive GenRequestKind where
  | responses
  | completions
deriving DecidableEq

/-- A generation request object: its class together with the dict its to_dict
method produces (model_dump with None fields excluded). -/
structure GenRequest where
  kind : GenRequestKind
  fields : JFields

/-- set_input_messages of the two request classes (model.py lines 128-129 and
157-158): responses requests store serialized messages under input, chat
completions requests under messages. -/
def GenRequest.set_input_messages (r : GenRequest) (ms : List Message) : GenRequest :=
  match r.kind with
  | .responses =>
      { r with fields := setKey r.fields "input" (.arr (ms.map Message.serialize)) }
  | .completions =>
      { r with fields := setKey r.fields "messages" (.arr (ms.map Message.serialize)) }

/-- An input instance for templated prompts (model.py PromptTemplateInputInstance):
its id, its optional per-instance request options defaulting to None, and its
prompt variable mapping. -/
structure PromptTemplateInputInstance where
  id : String
  instance_request_options : Option JFields
  prompt_value_mapping : List (String × String)

/-- An input instance for embeddings (model.py EmbeddingInputInstance). -/
structure EmbeddingInputInstance where
  id : String
  instance_request_options : Option JFields
  input : JValue

/-- The request strategies (model.py lines 67-83). -/
inductive RequestStrategy where
  | responsesAPI
  | chatCompletionsAPI
  | embeddingsAPI
deriving DecidableEq

/-- Endpoint url of each strategy (model.py). -/
def RequestStrategy.url : RequestStrategy → String
  | .responsesAPI => "/v1/responses"
  | .chatCompletionsAPI => "/v1/chat/completions"
  | .embeddingsAPI => "/v1/embeddings"

/-- RequestStrategy.create_request (model.py lines 59-65). -/
def RequestStrategy.create_request (s : RequestStrategy) (custom_id : String)
    (body : JFields) : JFields :=
  [("custom_id", .str custom_id), ("method", .str "POST"),
   ("url", .str s.url), ("body", .obj body)]

/-- The strategy argument of the manager: a strategy object or a string literal. -/
inductive StrategyArg where
  | strat (s : RequestStrategy)
  | lit (s : String)
deriving DecidableEq

/-- Embedding of _handle_prompt (manager.py lines 78-94): a reusable prompt is only
accepted on a responses request, on which the prompt reference is stored under the
prompt key; a template is formatted against the instance's value mapping and the
resulting messages installed as input messages. The source calls request.update for
the reusable case; this embedding treats it as a field update of the request dict. -/
def handle_prompt (prompt : Prompt) (request : GenRequest)
    (inst : PromptTemplateInputInstance) : Except PyError GenRequest :=
  match prompt with
  | .reusable rp =>
      if request.kind = GenRequestKind.responses then
        let pv : JValue := .obj [("id", .str rp.id), ("version", .str rp.version),
          ("variables", .obj (inst.prompt_value_mapping.map
            (fun q => (q.1, JValue.str q.2))))]
        .ok { request with fields := setKey request.fields "prompt" pv }
      else .error (.valueError "Reusable prompts can only be used with ResponsesOptions.")
  | .template t =>
      match PromptTemplate.format t inst.prompt_value_mapping with
      | .error e => .error e
      | .ok msgs => .ok (request.set_input_messages msgs)

/-- Python double-splat of the per-instance options into a dict literal: a None
value raises TypeError since NoneType is not a mapping (manager.py lines 33 and 44
splat instance.instance_request_options unguarded). -/
def splatOptions (base : JFields) (opts : Option JFields) : Except PyError JFields :=
  match opts with
  | none => .error (.typeError "argument of type NoneType is not a mapping")
  | some o => .ok (mergeFields base o)

/-- Strategy-string resolution of BatchJobManager.add (manager.py lines 52-62). -/
def BatchJobManager.resolveStrategy : StrategyArg → Except PyError RequestStrategy
  | .strat s => .ok s
  | .lit s =>
      if s = "responses" then .ok .responsesAPI
      else if s = "embeddings" then .ok .embeddingsAPI
      else if s = "completion" then .ok .chatCompletionsAPI
      else .error (.valueError ("Unknown request strategy string: " ++ s))

/-- Embedding of BatchJobManager.add (manager.py lines 49-73): resolve the strategy
argument and build the batch request record; the file append is modelled by
returning the record that would be written as one line. -/
def BatchJobManager.add (custom_id : String) (request : JFields)
    (strategyArg : StrategyArg) : Except PyError JFields :=
  match BatchJobManager.resolveStrategy strategyArg with
  | .error e => .error e
  | .ok s => .ok (s.create_request custom_id request)

/-- Per-instance loop of add_templated_instances (manager.py lines 30-35): handle
the prompt on a copy of the common request, then splat the common request's dict
with the instance options (discarding the prompt-handling result, as the source
does), then add the record. -/
def templatedLoop (prompt : Prompt) (common_request : GenRequest)
    (strategyArg : StrategyArg) :
    List PromptTemplateInputInstance → Except PyError (List JFields)
  | [] => .ok []
  | inst :: rest =>
    match handle_prompt prompt common_request inst with
    | .error e => .error e
    | .ok _body =>
      match splatOptions common_request.fields inst.instance_request_options with
      | .error e => .error e
      | .ok merged =>
        match BatchJobManager.add inst.id merged strategyArg with
        | .error e => .error e
        | .ok record =>
          match templatedLoop prompt common_request strategyArg rest with
          | .error e => .error e
          | .ok records => .ok (record :: records)

/-- Embedding of BatchJobManager.add_templated_instances (manager.py lines 18-35):
reject the embeddings strategy in object or string form, then process each
instance in order; the file append is modelled by returning the record list. -/
def BatchJobManager.add_templated_instances (prompt : Prompt)
    (common_request : GenRequest) (input_instances : List PromptTemplateInputInstance)
    (strategyArg : StrategyArg) : Except PyError (List JFields) :=
  if strategyArg = StrategyArg.strat RequestStrategy.embeddingsAPI then
    .error (.valueError "EmbeddingsAPIStrategy cannot be used with templated instances.")
  else if strategyArg = StrategyArg.lit "embeddings" then
    .error (.valueError "Embeddings request strategy cannot be used with templated instances.")
  else templatedLoop prompt common_request strategyArg input_instances

/-- Per-instance loop of add_embedding_requests (manager.py lines 42-47): splat the
common request's dict with the instance options, set the instance input, and add
the record under the embeddings strategy. -/
def embeddingLoop (common_request : JFields) :
    List EmbeddingInputInstance → Except PyError (List JFields)
  | [] => .ok []
  | inst :: rest =>
    match splatOptions common_request inst.instance_request_options with
    | .error e => .error e
    | .ok merged =>
      match embeddingLoop common_request rest with
      | .error e => .error e
      | .ok records =>
          .ok (RequestStrategy.embeddingsAPI.create_request inst.id
                (setKey merged "input" inst.input) :: records)

/-- Embedding of BatchJobManager.add_embedding_requests (manager.py lines 37-47). -/
def BatchJobManager.add_embedding_requests (inputs : List EmbeddingInputInstance)
    (common_request : JFields) : Except PyError (List JFields) :=
  embeddingLoop common_request inputs

/-- Lift of type_to_json_schema as the Python call site sees it: called on None, the
method access None.model_json_schema raises AttributeError; on a model, normalizer
failures surface as the lifted error. -/
def type_to_json_schema_py (fuel : Nat) : Option PydModel → Except PyError JValue
  | none => .error (.attributeError "NoneType object has no attribute model_json_schema")
  | some m =>
    match type_to_json_schema fuel m with
    | .error e => .error (.normError e)
    | .ok s => .ok s

/-- Embedding of CompletionsRequest.set_output_structure (model.py lines 160-169):
build the schema from the given output type and store the descriptor wrapped in a
format object under the request's response_format field. -/
def CompletionsRequest.set_output_structure (fuel : Nat) (req : JFields)
    (output_type : Option PydModel) : Except PyError JFields :=
  match type_to_json_schema_py fuel output_type with
  | .error e => .error e
  | .ok schema =>
    match output_type with
    | some m => .ok (setKey req "response_format"
        (.obj [("format", outputFormatDescriptor m.name schema)]))
    | none => .error (.attributeError "NoneType object has no attribute name")

/-- Embedding of Completions.parse (collector.py lines 35-39): validate the request
from model and keyword arguments, and when the response_format argument is not
None, call set_output_structure with the text_format argument (not with
response_format); then add the record under the chat-completions strategy. -/
def Completions.parse (fuel : Nat) (c : Completions) (custom_id : String)
    (model : String) (response_format : Option PydModel) (text_format : Option PydModel)
    (kwargs : JFields) : Except PyError JFields :=
  let request : JFields := mergeFields [("model", .str model)] kwargs
  match (match response_format with
         | some _ => CompletionsRequest.set_output_structure fuel request text_format
         | none => .ok request) with
  | .error e => .error e
  | .ok req => .ok (RequestStrategy.chatCompletionsAPI.create_request custom_id req)

/-- Whether a reference string begins with the local-document-pointer prefix, a hash
followed by a slash, matching the resolver's own test. -/
def hasLocalPointerStart (ref : String) : Bool :=
  match ref.toList with
  | '#' :: '/' :: _ => true
  | _ => false

/-- Concrete input document for the required-completeness witness: an object schema
with two properties and no required or additionalProperties keys. -/
def reqDoc : JValue :=
  .obj [("type", .str "object"),
        ("properties", .obj [("name", .obj [("type", .str "string")]),
                             ("age", .obj [("type", .str "integer")])])]

/-- The normalization of reqDoc. -/
def reqDocOut : JValue :=
  .obj [("type", .str "object"),
        ("properties", .obj [("name", .obj [("type", .str "string")]),
                             ("age", .obj [("type", .str "integer")])]),
        ("required", .arr [.str "name", .str "age"]),
        ("additionalProperties", .bool false)]

/-- Concrete input document for the author-override witness: an object schema that
explicitly sets additionalProperties to true. -/
def apDocFields : JFields :=
  [("type", .str "object"),
   ("properties", .obj [("name", .obj [("type", .str "string")])]),
   ("additionalProperties", .bool true)]

/-- The normalization of the author-override document. -/
def apDocOut : JValue :=
  .obj [("type", .str "object"),
        ("properties", .obj [("name", .obj [("type", .str "string")])]),
        ("additionalProperties", .bool true),
        ("required", .arr [.str "name"])]

/-- Root document of the reference-unrolling scenario: definitions binding User to an
object schema with a name property. -/
def unrollRoot : JValue :=
  .obj [("definitions", .obj [("User", .obj [("type", .str "object"),
    ("properties", .obj [("name", .obj [("type", .str "string")])])])])]

/-- Input node of the reference-unrolling scenario: a reference with a sibling
description key. -/
def unrollNode : JValue :=
  .obj [("$ref", .str "#/definitions/User"), ("description", .str "the user")]

/-- The normalization of the reference node against the root: the reference is
resolved and inlined, the sibling description kept, and the merged object made
strict. -/
def unrollOut : JValue :=
  .obj [("type", .str "object"),
        ("properties", .obj [("name", .obj [("type", .str "string")])]),
        ("description", .str "the user"),
        ("required", .arr [.str "name"]),
        ("additionalProperties", .bool false)]

/-- Concrete document for the idempotence witness: an object schema with a bare
reference property and a definitions container. -/
def idemDoc : JValue :=
  .obj [("type", .str "object"),
        ("properties", .obj [("user", .obj [("$ref", .str "#/definitions/User")])]),
        ("definitions", .obj [("User", .obj [("type", .str "object"),
          ("properties", .obj [("name", .obj [("type", .str "string")])])])])]

/-- The normalization of idemDoc. -/
def idemDocOut : JValue :=
  .obj [("type", .str "object"),
        ("properties", .obj [("user", .obj [("$ref", .str "#/definitions/User")])]),
        ("definitions", .obj [("User", .obj [("type", .str "object"),
          ("properties", .obj [("name", .obj [("type", .str "string")])]),
          ("required", .arr [.str "name"]),
          ("additionalProperties", .bool false)])]),
        ("required", .arr [.str "user"]),
        ("additionalProperties", .bool false)]

/-- Concrete node for the allOf witness: a single-element allOf list. -/
def allOfFields : JFields :=
  [("allOf", .arr [.obj [("type", .str "object"),
    ("properties", .obj [("name", .obj [("type", .str "string")])])]])]

/-- The branch list of the allOf witness node. -/
def allOfBranches : List JValue :=
  [.obj [("type", .str "object"),
    ("properties", .obj [("name", .obj [("type", .str "string")])])]]

/-- The normalized branch list of the allOf witness node. -/
def allOfBranchesOut : List JValue :=
  [.obj [("type", .str "object"),
    ("properties", .obj [("name", .obj [("type", .str "string")])]),
    ("required", .arr [.str "name"]),
    ("additionalProperties", .bool false)]]

/-- Concrete pydantic model for the descriptor witness. -/
def userModel : PydModel :=
  { name := "User",
    jsonSchema := .obj [("type", .str "object"),
      ("properties", .obj [("name", .obj [("type", .str "string")])])] }

/-- The normalized schema of the descriptor witness model. -/
def userModelSchema : JValue :=
  .obj [("type", .str "object"),
        ("properties", .obj [("name", .obj [("type", .str "string")])]),
        ("required", .arr [.str "name"]),
        ("additionalProperties", .bool false)]

/-- Builder state for the descriptor witness. -/
def userBuilder : BatchJobBuilder := { body_options := [("model", .str "gpt-4.1")] }

/-- Builder state after enforcing structured output for the witness model. -/
def userBuilderOut : BatchJobBuilder :=
  { body_options := [("model", .str "gpt-4.1"),
      ("text", .obj [("format", outputFormatDescriptor "User" userModelSchema)])] }

/-- Template prompt for the manager witness: one literal message, no placeholders. -/
def helloPrompt : Prompt :=
  Prompt.template { messages := [{ role := "user", content := [FmtPart.lit "hello"] }] }

/-- Common request for the manager witness. -/
def commonResponsesRequest : GenRequest :=
  { kind := GenRequestKind.responses, fields := [("model", .str "gpt-4.1")] }

/-- Input instance with absent per-instance options (the None default). -/
def optlessInstance : PromptTemplateInputInstance :=
  { id := "i1", instance_request_options := none, prompt_value_mapping := [] }

/-- The prompt-handled request for the manager witness. -/
def handledRequest : GenRequest :=
  { kind := GenRequestKind.responses,
    fields := [("model", .str "gpt-4.1"),
      ("input", .arr [.obj [("role", .str "user"), ("content", .str "hello")]])] }

/-- Embedding input instance with absent per-instance options. -/
def optlessEmbeddingInstance : EmbeddingInputInstance :=
  { id := "e1", instance_request_options := none, input := .str "text" }

/-- Common embeddings request dict for the manager witness. -/
def commonEmbeddingsFields : JFields := [("model", .str "text-embedding-3-small")]

theorem lookupKey_setKey_self (fs : JFields) (k : String) (v : JValue) :
    lookupKey k (setKey fs k v) = some v := by
  induction fs with
  | nil => simp [setKey, lookupKey]
  | cons p rest ih =>
    obtain ⟨k', v'⟩ := p
    by_cases h : k' = k
    · subst h
      simp [setKey, lookupKey]
    · simp [setKey, lookupKey, h, ih]

theorem lookupKey_setKey_ne (fs : JFields) (k k' : String) (v : JValue) (h : k' ≠ k) :
    lookupKey k' (setKey fs k v) = lookupKey k' fs := by
  induction fs with
  | nil =>
    simp [setKey, lookupKey]
    intro heq
    exact absurd heq.symm h
  | cons p rest ih =>
    obtain ⟨k0, v0⟩ := p
    by_cases h0 : k0 = k
    · subst h0
      have hne : ¬ (k0 = k') := fun heq => h (heq.symm ▸ rfl)
      simp [setKey, lookupKey, hne]
    · simp only [setKey, if_neg h0, lookupKey]
      by_cases h1 : k0 = k'
      · simp [h1]
      · simp [h1, ih]

theorem setKey_self_eq (fs : JFields) (k : String) (v : JValue)
    (h : lookupKey k fs = some v) : setKey fs k v = fs := by
  induction fs with
  | nil => simp [lookupKey] at h
  | cons p rest ih =>
    obtain ⟨k0, v0⟩ := p
    by_cases h0 : k0 = k
    · subst h0
      simp [lookupKey] at h
      simp [setKey, h]
    · simp only [lookupKey, if_neg h0] at h
      simp [setKey, h0, ih h]

theorem exceptMapVals_keys (f : JValue → Except NormError JValue) :
    ∀ l l' : JFields, exceptMapVals f l = .ok l' → l'.map Prod.fst = l.map Prod.fst := by
  intro l
  induction l with
  | nil =>
    intro l' h
    simp [exceptMapVals] at h
    simp [← h]
  | cons p rest ih =>
    intro l' h
    obtain ⟨k, v⟩ := p
    simp only [exceptMapVals] at h
    cases hv : f v with
    | error e => simp [hv] at h
    | ok w =>
      simp only [hv] at h
      cases hr : exceptMapVals f rest with
      | error e => simp [hr] at h
      | ok ws =>
        simp only [hr] at h
        cases h
        simp [ih ws hr]

theorem exceptMapVals_mem (f : JValue → Except NormError JValue) :
    ∀ l l' : JFields, exceptMapVals f l = .ok l' →
      ∀ p ∈ l', ∃ v, (p.1, v) ∈ l ∧ f v = .ok p.2 := by
  intro l
  induction l with
  | nil =>
    intro l' h p hp
    simp [exceptMapVals] at h
    subst h
    simp at hp
  | cons q rest ih =>
    intro l' h p hp
    obtain ⟨k, v⟩ := q
    simp only [exceptMapVals] at h
    cases hv : f v with
    | error e => simp [hv] at h
    | ok w =>
      simp only [hv] at h
      cases hr : exceptMapVals f rest with
      | error e => simp [hr] at h
      | ok ws =>
        simp only [hr] at h
        cases h
        rcases List.mem_cons.mp hp with hp | hp
        · subst hp
          exact ⟨v, by simp, hv⟩
        · rcases ih ws hr p hp with ⟨u, hu, hfu⟩
          exact ⟨u, by simp [hu], hfu⟩

theorem exceptMapVals_id (f : JValue → Except NormError JValue) :
    ∀ l : JFields, (∀ p ∈ l, f p.2 = .ok p.2) → exceptMapVals f l = .ok l := by
  intro l
  induction l with
  | nil => intro _; simp [exceptMapVals]
  | cons p rest ih =>
    intro h
    obtain ⟨k, v⟩ := p
    have hv : f v = .ok v := h (k, v) (by simp)
    have hr : exceptMapVals f rest = .ok rest := ih (fun q hq => h q (by simp [hq]))
    simp [exceptMapVals, hv, hr]

theorem exceptMapVals_congr (f g : JValue → Except NormError JValue)
    (hfg : ∀ v w, f v = .ok w → g v = .ok w) :
    ∀ l l' : JFields, exceptMapVals f l = .ok l' → exceptMapVals g l = .ok l' := by
  intro l
  induction l with
  | nil => intro l' h; simpa [exceptMapVals] using h
  | cons p rest ih =>
    intro l' h
    obtain ⟨k, v⟩ := p
    simp only [exceptMapVals] at h
    cases hv : f v with
    | error e => simp [hv] at h
    | ok w =>
      simp only [hv] at h
      cases hr : exceptMapVals f rest with
      | error e => simp [hr] at h
      | ok ws =>
        simp only [hr] at h
        cases h
        simp [exceptMapVals, hfg v w hv, ih ws hr]

theorem exceptMapList_length (f : JValue → Except NormError JValue) :
    ∀ xs ys : List JValue, exceptMapList f xs = .ok ys → ys.length = xs.length := by
  intro xs
  induction xs with
  | nil =>
    intro ys h
    simp [exceptMapList] at h
    simp [← h]
  | cons x rest ih =>
    intro ys h
    simp only [exceptMapList] at h
    cases hv : f x with
    | error e => simp [hv] at h
    | ok y =>
      simp only [hv] at h
      cases hr : exceptMapList f rest with
      | error e => simp [hr] at h
      | ok zs =>
        simp only [hr] at h
        cases h
        simp [ih zs hr]

theorem exceptMapList_get (f : JValue → Except NormError JValue) :
    ∀ xs ys : List JValue, exceptMapList f xs = .ok ys →
      ∀ i (hx : i < xs.length) (hy : i < ys.length),
        f (xs.get ⟨i, hx⟩) = .ok (ys.get ⟨i, hy⟩) := by
  intro xs
  induction xs with
  | nil =>
    intro ys h i hx hy
    simp at hx
  | cons x rest ih =>
    intro ys h i hx hy
    simp only [exceptMapList] at h
    cases hv : f x with
    | error e => simp [hv] at h
    | ok y =>
      simp only [hv] at h
      cases hr : exceptMapList f rest with
      | error e => simp [hr] at h
      | ok zs =>
        simp only [hr] at h
        cases h
        cases i with
        | zero => simpa using hv
        | succ j =>
          have hx' : j < rest.length := by simpa using hx
          have hy' : j < zs.length := by simpa using hy
          simpa using ih zs hr j hx' hy'

theorem exceptMapList_mem (f : JValue → Except NormError JValue) :
    ∀ xs ys : List JValue, exceptMapList f xs = .ok ys →
      ∀ y ∈ ys, ∃ x ∈ xs, f x = .ok y := by
  intro xs
  induction xs with
  | nil =>
    intro ys h y hy
    simp [exceptMapList] at h
    subst h
    simp at hy
  | cons x rest ih =>
    intro ys h y hy
    simp only [exceptMapList] at h
    cases hv : f x with
    | error e => simp [hv] at h
    | ok z =>
      simp only [hv] at h
      cases hr : exceptMapList f rest with
      | error e => simp [hr] at h
      | ok zs =>
        simp only [hr] at h
        cases h
        rcases List.mem_cons.mp hy with hy | hy
        · subst hy
          exact ⟨x, by simp, hv⟩
        · rcases ih zs hr y hy with ⟨u, hu, hfu⟩
          exact ⟨u, by simp [hu], hfu⟩

theorem exceptMapList_id (f : JValue → Except NormError JValue) :
    ∀ xs : List JValue, (∀ x ∈ xs, f x = .ok x) → exceptMapList f xs = .ok xs := by
  intro xs
  induction xs with
  | nil => intro _; simp [exceptMapList]
  | cons x rest ih =>
    intro h
    have hv : f x = .ok x := h x (by simp)
    have hr : exceptMapList f rest = .ok rest := ih (fun y hy => h y (by simp [hy]))
    simp [exceptMapList, hv, hr]

theorem exceptMapList_congr (f g : JValue → Except NormError JValue)
    (hfg : ∀ v w, f v = .ok w → g v = .ok w) :
    ∀ xs ys : List JValue, exceptMapList f xs = .ok ys → exceptMapList g xs = .ok ys := by
  intro xs
  induction xs with
  | nil => intro ys h; simpa [exceptMapList] using h
  | cons x rest ih =>
    intro ys h
    simp only [exceptMapList] at h
    cases hv : f x with
    | error e => simp [hv] at h
    | ok y =>
      simp only [hv] at h
      cases hr : exceptMapList f rest with
      | error e => simp [hr] at h
      | ok zs =>
        simp only [hr] at h
        cases h
        simp [exceptMapList, hfg x y hv, ih zs hr]

theorem normDefsKey_congr (f g : JValue → Except NormError JValue)
    (hfg : ∀ v w, f v = .ok w → g v = .ok w) (k : String) (fs fs1 : JFields)
    (h : normDefsKey f k fs = .ok fs1) : normDefsKey g k fs = .ok fs1 := by
  unfold normDefsKey at h ⊢
  cases hl : asObj (lookupKey k fs) with
  | none => simpa [hl] using h
  | some dfs =>
    simp only [hl] at h ⊢
    cases hm : exceptMapVals f dfs with
    | error e => simp [hm] at h
    | ok dfs' =>
      simp only [hm] at h
      rw [exceptMapVals_congr f g hfg dfs dfs' hm]
      exact h

theorem normPropsKey_congr (f g : JValue → Except NormError JValue)
    (hfg : ∀ v w, f v = .ok w → g v = .ok w) (fs fs1 : JFields)
    (h : normPropsKey f fs = .ok fs1) : normPropsKey g fs = .ok fs1 := by
  unfold normPropsKey at h ⊢
  cases hl : asObj (lookupKey "properties" fs) with
  | none => simpa [hl] using h
  | some pf =>
    simp only [hl] at h ⊢
    cases hm : exceptMapVals f pf with
    | error e => simp [hm] at h
    | ok pf' =>
      simp only [hm] at h
      rw [exceptMapVals_congr f g hfg pf pf' hm]
      exact h

theorem normItemsKey_congr (f g : JValue → Except NormError JValue)
    (hfg : ∀ v w, f v = .ok w → g v = .ok w) (fs fs1 : JFields)
    (h : normItemsKey f fs = .ok fs1) : normItemsKey g fs = .ok fs1 := by
  unfold normItemsKey at h ⊢
  cases hl : lookupKey "items" fs with
  | none => simpa [hl] using h
  | some v =>
    simp only [hl] at h ⊢
    cases hm : f v with
    | error e => simp [hm] at h
    | ok v' =>
      simp only [hm] at h
      rw [hfg v v' hm]
      exact h

theorem normListKey_congr (f g : JValue → Except NormError JValue)
    (hfg : ∀ v w, f v = .ok w → g v = .ok w) (k : String) (fs fs1 : JFields)
    (h : normListKey f k fs = .ok fs1) : normListKey g k fs = .ok fs1 := by
  unfold normListKey at h ⊢
  cases hl : asArr (lookupKey k fs) with
  | none => simpa [hl] using h
  | some xs =>
    simp only [hl] at h ⊢
    cases hm : exceptMapList f xs with
    | error e => simp [hm] at h
    | ok xs' =>
      simp only [hm] at h
      rw [exceptMapList_congr f g hfg xs xs' hm]
      exact h

theorem normalizeFields_congr (f g : JValue → Except NormError JValue)
    (hfg : ∀ v w, f v = .ok w → g v = .ok w) (fs fs' : JFields)
    (h : normalizeFields f fs = .ok fs') : normalizeFields g fs = .ok fs' := by
  unfold normalizeFields at h ⊢
  cases h2 : normDefsKey f "definitions" fs with
  | error e => simp [h2] at h
  | ok fs2 =>
    simp only [h2] at h
    rw [normDefsKey_congr f g hfg _ _ _ h2]
    simp only []
    cases h3 : normDefsKey f "$defs" fs2 with
    | error e => simp [h3] at h
    | ok fs3 =>
      simp only [h3] at h
      rw [normDefsKey_congr f g hfg _ _ _ h3]
      simp only []
      cases hobj : isObjectShaped fs3 with
      | true =>
        simp only [hobj] at h ⊢
        simp only [if_true] at h ⊢
        cases h4 : normPropsKey f fs3 with
        | error e => simp [h4] at h
        | ok fs4 =>
          simp only [h4] at h
          rw [normPropsKey_congr f g hfg _ _ h4]
          exact h
      | false =>
        simp only [hobj, Bool.false_eq_true, if_false] at h ⊢
        cases harr : isArrayShaped fs3 with
        | true =>
          simp only [harr, if_true] at h ⊢
          exact normItemsKey_congr f g hfg _ _ h
        | false =>
          simp only [harr, Bool.false_eq_true, if_false] at h ⊢
          cases hany : (lookupKey "anyOf" fs3).isSome with
          | true =>
            simp only [hany, if_true] at h ⊢
            exact normListKey_congr f g hfg _ _ _ h
          | false =>
            simp only [hany, Bool.false_eq_true, if_false] at h ⊢
            cases hall : (lookupKey "allOf" fs3).isSome with
            | true =>
              simp only [hall, if_true] at h ⊢
              exact normListKey_congr f g hfg _ _ _ h
            | false =>
              simpa only [hall, Bool.false_eq_true, if_false] using h

theorem ensure_succ_obj (n : Nat) (fs : JFields) (path : List String) (root : JValue) :
    ensure_strict_json_schema (n + 1) (.obj fs) path root =
      match lookupKey "$ref" fs with
      | some (.str ref) =>
          if has_more_than_n_keys fs 1 then
            match resolve_ref root ref with
            | .ok (.obj resolvedFs) =>
                ensure_strict_json_schema n
                  (.obj (eraseKey (mergeFields resolvedFs fs) "$ref")) path root
            | .ok _ => .error .unresolvedTargetNotObject
            | .error e => .error e
          else .ok (.obj fs)
      | some _ => .error (.malformedReference "")
      | none =>
          match normalizeFields
              (fun v => ensure_strict_json_schema n v path root) fs with
          | .ok fs' => .ok (.obj fs')
          | .error e => .error e := rfl

theorem ensure_succ_nonobj (n : Nat) (v : JValue) (path : List String) (root : JValue)
    (h : ∀ fs, v ≠ .obj fs) :
    ensure_strict_json_schema (n + 1) v path root = .ok v := by
  cases v with
  | obj fs => exact absurd rfl (h fs)
  | null => rfl
  | bool b => rfl
  | num m => rfl
  | str s => rfl
  | arr xs => rfl

theorem ensure_mono (n : Nat) :
    ∀ (v : JValue) (p : List String) (r : JValue) (out : JValue),
      ensure_strict_json_schema n v p r = .ok out →
      ensure_strict_json_schema (n + 1) v p r = .ok out := by
  induction n with
  | zero =>
    intro v p r out h
    simp [ensure_strict_json_schema] at h
  | succ m ih =>
    intro v p r out h
    cases v with
    | null => simpa using h
    | bool b => simpa using h
    | num k => simpa using h
    | str s => simpa using h
    | arr xs => simpa using h
    | obj fs =>
      rw [ensure_succ_obj] at h ⊢
      cases href : lookupKey "$ref" fs with
      | none =>
        simp only [href] at h ⊢
        cases hn : normalizeFields
            (fun v => ensure_strict_json_schema m v p r) fs with
        | error e => simp [hn] at h
        | ok fsn =>
          simp only [hn] at h
          rw [normalizeFields_congr _ _ (fun v w hw => ih v p r w hw) fs fsn hn]
          exact h
      | some rv =>
        cases rv with
        | str ref =>
          simp only [href] at h ⊢
          cases hk : has_more_than_n_keys fs 1 with
          | false => simpa only [hk, Bool.false_eq_true, if_false] using h
          | true =>
            simp only [hk, if_true] at h ⊢
            cases hres : resolve_ref r ref with
            | error e => simp [hres] at h
            | ok tgt =>
              cases tgt with
              | obj rfs =>
                simp only [hres] at h ⊢
                exact ih _ p r out h
              | null => simp [hres] at h
              | bool b => simp [hres] at h
              | num k => simp [hres] at h
              | str s => simp [hres] at h
              | arr xs => simp [hres] at h
        | null => simp [href] at h
        | bool b => simp [href] at h
        | num k => simp [href] at h
        | arr xs => simp [href] at h
        | obj gs => simp [href] at h

theorem asObj_eq_some (o : Option JValue) (fs : JFields) :
    asObj o = some fs ↔ o = some (.obj fs) := by
  cases o with
  | none => simp [asObj]
  | some v => cases v <;> simp [asObj]

theorem asArr_eq_some (o : Option JValue) (xs : List JValue) :
    asArr o = some xs ↔ o = some (.arr xs) := by
  cases o with
  | none => simp [asArr]
  | some v => cases v <;> simp [asArr]

theorem normDefsKey_fixed (g : JValue → Except NormError JValue) (k : String) (fs : JFields)
    (h : ∀ dfs, asObj (lookupKey k fs) = some dfs → ∀ q ∈ dfs, g q.2 = .ok q.2) :
    normDefsKey g k fs = .ok fs := by
  unfold normDefsKey
  cases hl : asObj (lookupKey k fs) with
  | none => rfl
  | some dfs =>
    simp only []
    rw [exceptMapVals_id g dfs (h dfs hl)]
    simp only []
    rw [setKey_self_eq _ _ _ ((asObj_eq_some _ _).mp hl)]

theorem normPropsKey_fixed (g : JValue → Except NormError JValue) (fs : JFields)
    (hpf : ∀ pf, asObj (lookupKey "properties" fs) = some pf → ∀ q ∈ pf, g q.2 = .ok q.2)
    (hreq : lookupKey "required" fs = some (.arr ((propKeysOf fs).map JValue.str))) :
    normPropsKey g fs = .ok fs := by
  unfold normPropsKey
  cases hl : asObj (lookupKey "properties" fs) with
  | none => rw [setKey_self_eq _ _ _ hreq]
  | some pf =>
    simp only []
    rw [exceptMapVals_id g pf (hpf pf hl)]
    simp only []
    rw [setKey_self_eq _ _ _ ((asObj_eq_some _ _).mp hl)]
    rw [setKey_self_eq _ _ _ hreq]

theorem ensureAdditionalProperties_fixed (fs : JFields)
    (h : (lookupKey "additionalProperties" fs).isSome = true) :
    ensureAdditionalProperties fs = fs := by
  unfold ensureAdditionalProperties
  cases hl : lookupKey "additionalProperties" fs with
  | some v => rfl
  | none => rw [hl] at h; simp at h

theorem normItemsKey_fixed (g : JValue → Except NormError JValue) (fs : JFields)
    (h : ∀ v, lookupKey "items" fs = some v → g v = .ok v) :
    normItemsKey g fs = .ok fs := by
  unfold normItemsKey
  cases hl : lookupKey "items" fs with
  | none => rfl
  | some v =>
    simp only []
    rw [h v hl]
    simp only []
    rw [setKey_self_eq _ _ _ hl]

theorem normListKey_fixed (g : JValue → Except NormError JValue) (k : String) (fs : JFields)
    (h : ∀ xs, asArr (lookupKey k fs) = some xs → ∀ x ∈ xs, g x = .ok x) :
    normListKey g k fs = .ok fs := by
  unfold normListKey
  cases hl : asArr (lookupKey k fs) with
  | none => rfl
  | some xs =>
    simp only []
    rw [exceptMapList_id g xs (h xs hl)]
    simp only []
    rw [setKey_self_eq _ _ _ ((asArr_eq_some _ _).mp hl)]

theorem normDefsKey_frame (f : JValue → Except NormError JValue) (k : String)
    (fs fs1 : JFields) (h : normDefsKey f k fs = .ok fs1) :
    ∀ k', k' ≠ k → lookupKey k' fs1 = lookupKey k' fs := by
  intro k' hk
  unfold normDefsKey at h
  cases hl : asObj (lookupKey k fs) with
  | none =>
    rw [hl] at h
    cases h
    rfl
  | some dfs =>
    rw [hl] at h
    simp only [] at h
    cases hm : exceptMapVals f dfs with
    | error e => rw [hm] at h; cases h
    | ok dfs' =>
      rw [hm] at h
      cases h
      exact lookupKey_setKey_ne fs k k' _ hk

theorem normDefsKey_at (f : JValue → Except NormError JValue) (k : String)
    (fs fs1 : JFields) (h : normDefsKey f k fs = .ok fs1) :
    ∀ dfs', asObj (lookupKey k fs1) = some dfs' → ∀ q ∈ dfs', ∃ v, f v = .ok q.2 := by
  intro dfs' hl' q hq
  unfold normDefsKey at h
  cases hl : asObj (lookupKey k fs) with
  | none =>
    rw [hl] at h
    cases h
    rw [hl'] at hl
    cases hl
  | some dfs =>
    rw [hl] at h
    simp only [] at h
    cases hm : exceptMapVals f dfs with
    | error e => rw [hm] at h; cases h
    | ok dfs'' =>
      rw [hm] at h
      cases h
      have : lookupKey k (setKey fs k (.obj dfs'')) = some (.obj dfs'') :=
        lookupKey_setKey_self fs k _
      rw [(asObj_eq_some _ _).mpr this] at hl'
      cases hl'
      rcases exceptMapVals_mem f dfs _ hm q hq with ⟨v, hv, hfv⟩
      exact ⟨v, hfv⟩

theorem normPropsKey_frame (f : JValue → Except NormError JValue)
    (fs fs1 : JFields) (h : normPropsKey f fs = .ok fs1) :
    ∀ k', k' ≠ "properties" → k' ≠ "required" → lookupKey k' fs1 = lookupKey k' fs := by
  intro k' hp hr
  unfold normPropsKey at h
  cases hl : asObj (lookupKey "properties" fs) with
  | none =>
    rw [hl] at h
    cases h
    exact lookupKey_setKey_ne fs _ k' _ hr
  | some pf =>
    rw [hl] at h
    simp only [] at h
    cases hm : exceptMapVals f pf with
    | error e => rw [hm] at h; cases h
    | ok pf' =>
      rw [hm] at h
      cases h
      rw [lookupKey_setKey_ne _ _ k' _ hr]
      exact lookupKey_setKey_ne fs _ k' _ hp

theorem normPropsKey_required (f : JValue → Except NormError JValue)
    (fs fs1 : JFields) (h : normPropsKey f fs = .ok fs1) :
    lookupKey "required" fs1 = some (.arr ((propKeysOf fs).map JValue.str)) := by
  unfold normPropsKey at h
  cases hl : asObj (lookupKey "properties" fs) with
  | none =>
    rw [hl] at h
    cases h
    exact lookupKey_setKey_self fs _ _
  | some pf =>
    rw [hl] at h
    simp only [] at h
    cases hm : exceptMapVals f pf with
    | error e => rw [hm] at h; cases h
    | ok pf' =>
      rw [hm] at h
      cases h
      exact lookupKey_setKey_self _ _ _

theorem normPropsKey_at (f : JValue → Except NormError JValue)
    (fs fs1 : JFields) (h : normPropsKey f fs = .ok fs1) :
    ∀ pf', asObj (lookupKey "properties" fs1) = some pf' → ∀ q ∈ pf', ∃ v, f v = .ok q.2 := by
  intro pf' hl' q hq
  unfold normPropsKey at h
  cases hl : asObj (lookupKey "properties" fs) with
  | none =>
    rw [hl] at h
    cases h
    rw [lookupKey_setKey_ne fs _ "properties" _ (by decide)] at hl'
    rw [hl'] at hl
    cases hl
  | some pf =>
    rw [hl] at h
    simp only [] at h
    cases hm : exceptMapVals f pf with
    | error e => rw [hm] at h; cases h
    | ok pf'' =>
      rw [hm] at h
      cases h
      rw [lookupKey_setKey_ne _ _ "properties" _ (by decide)] at hl'
      have : lookupKey "properties" (setKey fs "properties" (.obj pf'')) =
          some (.obj pf'') := lookupKey_setKey_self fs _ _
      rw [(asObj_eq_some _ _).mpr this] at hl'
      cases hl'
      rcases exceptMapVals_mem f pf _ hm q hq with ⟨v, hv, hfv⟩
      exact ⟨v, hfv⟩

theorem normPropsKey_propKeys (f : JValue → Except NormError JValue)
    (fs fs1 : JFields) (h : normPropsKey f fs = .ok fs1) :
    propKeysOf fs1 = propKeysOf fs := by
  unfold normPropsKey at h
  cases hl : asObj (lookupKey "properties" fs) with
  | none =>
    rw [hl] at h
    cases h
    unfold propKeysOf
    rw [lookupKey_setKey_ne fs _ "properties" _ (by decide)]
  | some pf =>
    rw [hl] at h
    simp only [] at h
    cases hm : exceptMapVals f pf with
    | error e => rw [hm] at h; cases h
    | ok pf' =>
      rw [hm] at h
      cases h
      unfold propKeysOf
      rw [lookupKey_setKey_ne _ _ "properties" _ (by decide)]
      rw [lookupKey_setKey_self fs "properties" (.obj pf')]
      rw [hl]
      simp only [asObj]
      exact exceptMapVals_keys f pf pf' hm

theorem ensureAdditionalProperties_frame (fs : JFields) :
    ∀ k', k' ≠ "additionalProperties" →
      lookupKey k' (ensureAdditionalProperties fs) = lookupKey k' fs := by
  intro k' hk
  unfold ensureAdditionalProperties
  cases hl : lookupKey "additionalProperties" fs with
  | some v => rfl
  | none => exact lookupKey_setKey_ne fs _ k' _ hk

theorem ensureAdditionalProperties_lookup (fs : JFields) :
    lookupKey "additionalProperties" (ensureAdditionalProperties fs) =
      some (match lookupKey "additionalProperties" fs with
            | some x => x
            | none => .bool false) := by
  unfold ensureAdditionalProperties
  cases hl : lookupKey "additionalProperties" fs with
  | some v => simpa using hl
  | none => exact lookupKey_setKey_self fs _ _

theorem normItemsKey_frame (f : JValue → Except NormError JValue)
    (fs fs1 : JFields) (h : normItemsKey f fs = .ok fs1) :
    ∀ k', k' ≠ "items" → lookupKey k' fs1 = lookupKey k' fs := by
  intro k' hk
  unfold normItemsKey at h
  cases hl : lookupKey "items" fs with
  | none => rw [hl] at h; cases h; rfl
  | some v =>
    rw [hl] at h
    simp only [] at h
    cases hm : f v with
    | error e => rw [hm] at h; cases h
    | ok v' =>
      rw [hm] at h
      cases h
      exact lookupKey_setKey_ne fs _ k' _ hk

theorem normItemsKey_at (f : JValue → Except NormError JValue)
    (fs fs1 : JFields) (h : normItemsKey f fs = .ok fs1) :
    ∀ v', lookupKey "items" fs1 = some v' → ∃ v, f v = .ok v' := by
  intro v' hl'
  unfold normItemsKey at h
  cases hl : lookupKey "items" fs with
  | none => rw [hl] at h; cases h; rw [hl'] at hl; cases hl
  | some v =>
    rw [hl] at h
    simp only [] at h
    cases hm : f v with
    | error e => rw [hm] at h; cases h
    | ok w =>
      rw [hm] at h
      cases h
      rw [lookupKey_setKey_self fs _ _] at hl'
      cases hl'
      exact ⟨v, hm⟩

theorem normItemsKey_isSome (f : JValue → Except NormError JValue)
    (fs fs1 : JFields) (h : normItemsKey f fs = .ok fs1) :
    (lookupKey "items" fs1).isSome = (lookupKey "items" fs).isSome := by
  unfold normItemsKey at h
  cases hl : lookupKey "items" fs with
  | none => rw [hl] at h; cases h; rw [hl]
  | some v =>
    rw [hl] at h
    simp only [] at h
    cases hm : f v with
    | error e => rw [hm] at h; cases h
    | ok v' =>
      rw [hm] at h
      cases h
      simp [lookupKey_setKey_self, hl]

theorem normListKey_frame (f : JValue → Except NormError JValue) (k : String)
    (fs fs1 : JFields) (h : normListKey f k fs = .ok fs1) :
    ∀ k', k' ≠ k → lookupKey k' fs1 = lookupKey k' fs := by
  intro k' hk
  unfold normListKey at h
  cases hl : asArr (lookupKey k fs) with
  | none => rw [hl] at h; cases h; rfl
  | some xs =>
    rw [hl] at h
    simp only [] at h
    cases hm : exceptMapList f xs with
    | error e => rw [hm] at h; cases h
    | ok xs' =>
      rw [hm] at h
      cases h
      exact lookupKey_setKey_ne fs _ k' _ hk

theorem normListKey_at (f : JValue → Except NormError JValue) (k : String)
    (fs fs1 : JFields) (h : normListKey f k fs = .ok fs1) :
    ∀ xs', asArr (lookupKey k fs1) = some xs' → ∀ x ∈ xs', ∃ v, f v = .ok x := by
  intro xs' hl' x hx
  unfold normListKey at h
  cases hl : asArr (lookupKey k fs) with
  | none => rw [hl] at h; cases h; rw [hl'] at hl; cases hl
  | some xs =>
    rw [hl] at h
    simp only [] at h
    cases hm : exceptMapList f xs with
    | error e => rw [hm] at h; cases h
    | ok xs'' =>
      rw [hm] at h
      cases h
      have : lookupKey k (setKey fs k (.arr xs'')) = some (.arr xs'') :=
        lookupKey_setKey_self fs k _
      rw [(asArr_eq_some _ _).mpr this] at hl'
      cases hl'
      rcases exceptMapList_mem f xs _ hm x hx with ⟨u, hu, hfu⟩
      exact ⟨u, hfu⟩

theorem normListKey_isSome (f : JValue → Except NormError JValue) (k : String)
    (fs fs1 : JFields) (h : normListKey f k fs = .ok fs1) :
    (lookupKey k fs1).isSome = (lookupKey k fs).isSome := by
  unfold normListKey at h
  cases hl : asArr (lookupKey k fs) with
  | none => rw [hl] at h; cases h; rfl
  | some xs =>
    rw [hl] at h
    simp only [] at h
    cases hm : exceptMapList f xs with
    | error e => rw [hm] at h; cases h
    | ok xs' =>
      rw [hm] at h
      cases h
      rw [lookupKey_setKey_self fs _ _, (asArr_eq_some _ _).mp hl]
      rfl

theorem normPropsKey_props_isSome (f : JValue → Except NormError JValue)
    (fs fs1 : JFields) (h : normPropsKey f fs = .ok fs1) :
    (lookupKey "properties" fs1).isSome = (lookupKey "properties" fs).isSome := by
  unfold normPropsKey at h
  cases hl : asObj (lookupKey "properties" fs) with
  | none =>
    rw [hl] at h
    cases h
    rw [lookupKey_setKey_ne fs _ "properties" _ (by decide)]
  | some pf =>
    rw [hl] at h
    simp only [] at h
    cases hm : exceptMapVals f pf with
    | error e => rw [hm] at h; cases h
    | ok pf' =>
      rw [hm] at h
      cases h
      rw [lookupKey_setKey_ne _ _ "properties" _ (by decide)]
      rw [lookupKey_setKey_self fs _ _, (asObj_eq_some _ _).mp hl]
      rfl

theorem typeIs_congr (t : String) (fs1 fs2 : JFields)
    (h : lookupKey "type" fs1 = lookupKey "type" fs2) : typeIs t fs1 = typeIs t fs2 := by
  unfold typeIs
  rw [h]

theorem isObjectShaped_congr (fs1 fs2 : JFields)
    (ht : lookupKey "type" fs1 = lookupKey "type" fs2)
    (hp : (lookupKey "properties" fs1).isSome = (lookupKey "properties" fs2).isSome) :
    isObjectShaped fs1 = isObjectShaped fs2 := by
  unfold isObjectShaped
  rw [typeIs_congr _ _ _ ht, hp]

theorem isArrayShaped_congr (fs1 fs2 : JFields)
    (ht : lookupKey "type" fs1 = lookupKey "type" fs2)
    (hi : (lookupKey "items" fs1).isSome = (lookupKey "items" fs2).isSome) :
    isArrayShaped fs1 = isArrayShaped fs2 := by
  unfold isArrayShaped
  rw [typeIs_congr _ _ _ ht, hi]

theorem propKeysOf_congr (fs1 fs2 : JFields)
    (h : lookupKey "properties" fs1 = lookupKey "properties" fs2) :
    propKeysOf fs1 = propKeysOf fs2 := by
  unfold propKeysOf
  rw [h]

theorem asArr_of_isSome_false (o : Option JValue) (h : o.isSome = false) :
    asArr o = none := by
  cases o with
  | none => rfl
  | some v => simp at h

theorem normalizeFields_cases (f : JValue → Except NormError JValue) (fs fs' : JFields)
    (h : normalizeFields f fs = .ok fs') :
    ∃ fs2 fs3, normDefsKey f "definitions" fs = .ok fs2 ∧
      normDefsKey f "$defs" fs2 = .ok fs3 ∧
      ((isObjectShaped fs3 = true ∧
          ∃ fs4, normPropsKey f fs3 = .ok fs4 ∧ fs' = ensureAdditionalProperties fs4)
       ∨ (isObjectShaped fs3 = false ∧ isArrayShaped fs3 = true ∧
          normItemsKey f fs3 = .ok fs')
       ∨ (isObjectShaped fs3 = false ∧ isArrayShaped fs3 = false ∧
          (lookupKey "anyOf" fs3).isSome = true ∧ normListKey f "anyOf" fs3 = .ok fs')
       ∨ (isObjectShaped fs3 = false ∧ isArrayShaped fs3 = false ∧
          (lookupKey "anyOf" fs3).isSome = false ∧ (lookupKey "allOf" fs3).isSome = true ∧
          normListKey f "allOf" fs3 = .ok fs')
       ∨ (isObjectShaped fs3 = false ∧ isArrayShaped fs3 = false ∧
          (lookupKey "anyOf" fs3).isSome = false ∧ (lookupKey "allOf" fs3).isSome = false ∧
          fs' = fs3)) := by
  unfold normalizeFields at h
  cases h2 : normDefsKey f "definitions" fs with
  | error e => rw [h2] at h; cases h
  | ok fs2 =>
    rw [h2] at h
    simp only [] at h
    cases h3 : normDefsKey f "$defs" fs2 with
    | error e => rw [h3] at h; cases h
    | ok fs3 =>
      rw [h3] at h
      simp only [] at h
      refine ⟨fs2, fs3, rfl, h3, ?_⟩
      cases ho : isObjectShaped fs3 with
      | true =>
        rw [ho] at h
        simp only [if_true] at h
        cases h4 : normPropsKey f fs3 with
        | error e => rw [h4] at h; cases h
        | ok fs4 =>
          rw [h4] at h
          simp only [] at h
          cases h
          exact Or.inl ⟨rfl, fs4, rfl, rfl⟩
      | false =>
        rw [ho] at h
        simp only [Bool.false_eq_true, if_false] at h
        cases ha : isArrayShaped fs3 with
        | true =>
          rw [ha] at h
          simp only [if_true] at h
          exact Or.inr (Or.inl ⟨rfl, rfl, h⟩)
        | false =>
          rw [ha] at h
          simp only [Bool.false_eq_true, if_false] at h
          cases hy : (lookupKey "anyOf" fs3).isSome with
          | true =>
            rw [hy] at h
            simp only [if_true] at h
            exact Or.inr (Or.inr (Or.inl ⟨rfl, rfl, rfl, h⟩))
          | false =>
            rw [hy] at h
            simp only [Bool.false_eq_true, if_false] at h
            cases hw : (lookupKey "allOf" fs3).isSome with
            | true =>
              rw [hw] at h
              simp only [if_true] at h
              exact Or.inr (Or.inr (Or.inr (Or.inl ⟨rfl, rfl, rfl, rfl, h⟩)))
            | false =>
              rw [hw] at h
              simp only [Bool.false_eq_true, if_false] at h
              cases h
              exact Or.inr (Or.inr (Or.inr (Or.inr ⟨rfl, rfl, rfl, rfl, rfl⟩)))

theorem normalizeFields_fixed (g : JValue → Except NormError JValue) (fs : JFields)
    (h1 : ∀ dfs, asObj (lookupKey "definitions" fs) = some dfs → ∀ q ∈ dfs, g q.2 = .ok q.2)
    (h2 : ∀ dfs, asObj (lookupKey "$defs" fs) = some dfs → ∀ q ∈ dfs, g q.2 = .ok q.2)
    (hobj : isObjectShaped fs = true →
        (∀ pf, asObj (lookupKey "properties" fs) = some pf → ∀ q ∈ pf, g q.2 = .ok q.2)
      ∧ lookupKey "required" fs = some (.arr ((propKeysOf fs).map JValue.str))
      ∧ (lookupKey "additionalProperties" fs).isSome = true)
    (harr : isObjectShaped fs = false → isArrayShaped fs = true →
        ∀ v, lookupKey "items" fs = some v → g v = .ok v)
    (hany : isObjectShaped fs = false → isArrayShaped fs = false →
        ∀ xs, asArr (lookupKey "anyOf" fs) = some xs → ∀ x ∈ xs, g x = .ok x)
    (hall : isObjectShaped fs = false → isArrayShaped fs = false →
        (lookupKey "anyOf" fs).isSome = false →
        ∀ xs, asArr (lookupKey "allOf" fs) = some xs → ∀ x ∈ xs, g x = .ok x) :
    normalizeFields g fs = .ok fs := by
  unfold normalizeFields
  rw [normDefsKey_fixed g _ _ h1]
  simp only []
  rw [normDefsKey_fixed g _ _ h2]
  simp only []
  cases ho : isObjectShaped fs with
  | true =>
    simp only [if_true]
    rw [normPropsKey_fixed g fs (hobj ho).1 (hobj ho).2.1]
    simp only []
    rw [ensureAdditionalProperties_fixed fs (hobj ho).2.2]
  | false =>
    simp only [Bool.false_eq_true, if_false]
    cases ha : isArrayShaped fs with
    | true =>
      simp only [if_true]
      exact normItemsKey_fixed g fs (harr ho ha)
    | false =>
      simp only [Bool.false_eq_true, if_false]
      cases hy : (lookupKey "anyOf" fs).isSome with
      | true =>
        simp only [if_true]
        exact normListKey_fixed g _ fs (hany ho ha)
      | false =>
        simp only [Bool.false_eq_true, if_false]
        cases hw : (lookupKey "allOf" fs).isSome with
        | true =>
          simp only [if_true]
          exact normListKey_fixed g _ fs (hall ho ha hy)
        | false => simp only [Bool.false_eq_true, if_false]

theorem normalizeFields_post (f : JValue → Except NormError JValue) (fs fs' : JFields)
    (h : normalizeFields f fs = .ok fs') :
    lookupKey "$ref" fs' = lookupKey "$ref" fs
  ∧ (∀ dfs, asObj (lookupKey "definitions" fs') = some dfs → ∀ q ∈ dfs, ∃ v, f v = .ok q.2)
  ∧ (∀ dfs, asObj (lookupKey "$defs" fs') = some dfs → ∀ q ∈ dfs, ∃ v, f v = .ok q.2)
  ∧ (isObjectShaped fs' = true →
        (∀ pf, asObj (lookupKey "properties" fs') = some pf → ∀ q ∈ pf, ∃ v, f v = .ok q.2)
      ∧ lookupKey "required" fs' = some (.arr ((propKeysOf fs').map JValue.str))
      ∧ (lookupKey "additionalProperties" fs').isSome = true)
  ∧ (isObjectShaped fs' = false → isArrayShaped fs' = true →
        ∀ v', lookupKey "items" fs' = some v' → ∃ v, f v = .ok v')
  ∧ (isObjectShaped fs' = false → isArrayShaped fs' = false →
        ∀ xs, asArr (lookupKey "anyOf" fs') = some xs → ∀ x ∈ xs, ∃ v, f v = .ok x)
  ∧ (isObjectShaped fs' = false → isArrayShaped fs' = false →
        (lookupKey "anyOf" fs').isSome = false →
        ∀ xs, asArr (lookupKey "allOf" fs') = some xs → ∀ x ∈ xs, ∃ v, f v = .ok x) := by
  rcases normalizeFields_cases f fs fs' h with
    ⟨fs2, fs3, h2, h3, hbr⟩
  have fr2 := normDefsKey_frame f "definitions" fs fs2 h2
  have fr3 := normDefsKey_frame f "$defs" fs2 fs3 h3
  have at2 := normDefsKey_at f "definitions" fs fs2 h2
  have at3 := normDefsKey_at f "$defs" fs2 fs3 h3
  have hdefs3 : lookupKey "definitions" fs3 = lookupKey "definitions" fs2 :=
    fr3 "definitions" (by decide)
  rcases hbr with ⟨ho, fs4, h4, hfs'⟩ | ⟨ho, ha, hit⟩ | ⟨ho, ha, hy, hln⟩ |
    ⟨ho, ha, hy, hw, hln⟩ | ⟨ho, ha, hy, hw, hfs'⟩
  · -- object branch
    subst hfs'
    have frP := normPropsKey_frame f fs3 fs4 h4
    have frA := ensureAdditionalProperties_frame fs4
    have hP4 : lookupKey "properties" (ensureAdditionalProperties fs4) =
        lookupKey "properties" fs4 := frA "properties" (by decide)
    have hT : lookupKey "type" (ensureAdditionalProperties fs4) = lookupKey "type" fs3 := by
      rw [frA "type" (by decide), frP "type" (by decide) (by decide)]
    have hPs : (lookupKey "properties" (ensureAdditionalProperties fs4)).isSome =
        (lookupKey "properties" fs3).isSome := by
      rw [hP4, normPropsKey_props_isSome f fs3 fs4 h4]
    have hoeq : isObjectShaped (ensureAdditionalProperties fs4) = isObjectShaped fs3 :=
      isObjectShaped_congr _ _ hT hPs
    have hpk : propKeysOf (ensureAdditionalProperties fs4) = propKeysOf fs3 := by
      rw [propKeysOf_congr _ _ hP4]
      exact normPropsKey_propKeys f fs3 fs4 h4
    refine ⟨?_, ?_, ?_, ?_, ?_, ?_, ?_⟩
    · rw [frA "$ref" (by decide), frP "$ref" (by decide) (by decide),
        fr3 "$ref" (by decide), fr2 "$ref" (by decide)]
    · intro dfs hdl
      rw [frA "definitions" (by decide), frP "definitions" (by decide) (by decide),
        hdefs3] at hdl
      exact at2 dfs hdl
    · intro dfs hdl
      rw [frA "$defs" (by decide), frP "$defs" (by decide) (by decide)] at hdl
      exact at3 dfs hdl
    · intro _
      refine ⟨?_, ?_, ?_⟩
      · intro pf hpl
        rw [hP4] at hpl
        exact normPropsKey_at f fs3 fs4 h4 pf hpl
      · rw [hpk, frA "required" (by decide), normPropsKey_required f fs3 fs4 h4]
      · rw [ensureAdditionalProperties_lookup fs4]
        rfl
    · intro hcon
      rw [hoeq, ho] at hcon
      cases hcon
    · intro hcon
      rw [hoeq, ho] at hcon
      cases hcon
    · intro hcon
      rw [hoeq, ho] at hcon
      cases hcon
  · -- array branch
    have frI := normItemsKey_frame f fs3 fs' hit
    have hT : lookupKey "type" fs' = lookupKey "type" fs3 := frI "type" (by decide)
    have hPs : (lookupKey "properties" fs').isSome = (lookupKey "properties" fs3).isSome := by
      rw [frI "properties" (by decide)]
    have hoeq : isObjectShaped fs' = isObjectShaped fs3 := isObjectShaped_congr _ _ hT hPs
    have haeq : isArrayShaped fs' = isArrayShaped fs3 :=
      isArrayShaped_congr _ _ hT (normItemsKey_isSome f fs3 fs' hit)
    refine ⟨?_, ?_, ?_, ?_, ?_, ?_, ?_⟩
    · rw [frI "$ref" (by decide), fr3 "$ref" (by decide), fr2 "$ref" (by decide)]
    · intro dfs hdl
      rw [frI "definitions" (by decide), hdefs3] at hdl
      exact at2 dfs hdl
    · intro dfs hdl
      rw [frI "$defs" (by decide)] at hdl
      exact at3 dfs hdl
    · intro hcon
      rw [hoeq, ho] at hcon
      cases hcon
    · intro _ _ v' hv'
      exact normItemsKey_at f fs3 fs' hit v' hv'
    · intro _ hcon
      rw [haeq, ha] at hcon
      cases hcon
    · intro _ hcon
      rw [haeq, ha] at hcon
      cases hcon
  · -- anyOf branch
    have frL := normListKey_frame f "anyOf" fs3 fs' hln
    have hT : lookupKey "type" fs' = lookupKey "type" fs3 := frL "type" (by decide)
    have hPs : (lookupKey "properties" fs').isSome = (lookupKey "properties" fs3).isSome := by
      rw [frL "properties" (by decide)]
    have hoeq : isObjectShaped fs' = isObjectShaped fs3 := isObjectShaped_congr _ _ hT hPs
    have haeq : isArrayShaped fs' = isArrayShaped fs3 := by
      refine isArrayShaped_congr _ _ hT ?_
      rw [frL "items" (by decide)]
    have hyeq : (lookupKey "anyOf" fs').isSome = (lookupKey "anyOf" fs3).isSome :=
      normListKey_isSome f "anyOf" fs3 fs' hln
    refine ⟨?_, ?_, ?_, ?_, ?_, ?_, ?_⟩
    · rw [frL "$ref" (by decide), fr3 "$ref" (by decide), fr2 "$ref" (by decide)]
    · intro dfs hdl
      rw [frL "definitions" (by decide), hdefs3] at hdl
      exact at2 dfs hdl
    · intro dfs hdl
      rw [frL "$defs" (by decide)] at hdl
      exact at3 dfs hdl
    · intro hcon
      rw [hoeq, ho] at hcon
      cases hcon
    · intro _ hcon
      rw [haeq, ha] at hcon
      cases hcon
    · intro _ _ xs hxl
      exact normListKey_at f "anyOf" fs3 fs' hln xs hxl
    · intro _ _ hcon
      rw [hyeq, hy] at hcon
      cases hcon
  · -- allOf branch
    have frL := normListKey_frame f "allOf" fs3 fs' hln
    have hT : lookupKey "type" fs' = lookupKey "type" fs3 := frL "type" (by decide)
    have hPs : (lookupKey "properties" fs').isSome = (lookupKey "properties" fs3).isSome := by
      rw [frL "properties" (by decide)]
    have hoeq : isObjectShaped fs' = isObjectShaped fs3 := isObjectShaped_congr _ _ hT hPs
    have haeq : isArrayShaped fs' = isArrayShaped fs3 := by
      refine isArrayShaped_congr _ _ hT ?_
      rw [frL "items" (by decide)]
    have hyeq : lookupKey "anyOf" fs' = lookupKey "anyOf" fs3 := frL "anyOf" (by decide)
    refine ⟨?_, ?_, ?_, ?_, ?_, ?_, ?_⟩
    · rw [frL "$ref" (by decide), fr3 "$ref" (by decide), fr2 "$ref" (by decide)]
    · intro dfs hdl
      rw [frL "definitions" (by decide), hdefs3] at hdl
      exact at2 dfs hdl
    · intro dfs hdl
      rw [frL "$defs" (by decide)] at hdl
      exact at3 dfs hdl
    · intro hcon
      rw [hoeq, ho] at hcon
      cases hcon
    · intro _ hcon
      rw [haeq, ha] at hcon
      cases hcon
    · intro _ _ xs hxl
      rw [hyeq, asArr_of_isSome_false _ hy] at hxl
      cases hxl
    · intro _ _ _ xs hxl
      exact normListKey_at f "allOf" fs3 fs' hln xs hxl
  · -- leaf branch
    subst hfs'
    refine ⟨?_, ?_, ?_, ?_, ?_, ?_, ?_⟩
    · rw [fr3 "$ref" (by decide), fr2 "$ref" (by decide)]
    · intro dfs hdl
      rw [hdefs3] at hdl
      exact at2 dfs hdl
    · intro dfs hdl
      exact at3 dfs hdl
    · intro hcon
      rw [ho] at hcon
      cases hcon
    · intro _ hcon
      rw [ha] at hcon
      cases hcon
    · intro _ _ xs hxl
      rw [asArr_of_isSome_false _ hy] at hxl
      cases hxl
    · intro _ _ _ xs hxl
      rw [asArr_of_isSome_false _ hw] at hxl
      cases hxl

theorem ensure_stable (n : Nat) :
    ∀ (v : JValue) (p : List String) (r : JValue) (out : JValue),
      ensure_strict_json_schema n v p r = .ok out →
      ∀ (p' : List String) (r' : JValue),
        ensure_strict_json_schema n out p' r' = .ok out := by
  induction n with
  | zero =>
    intro v p r out h
    simp [ensure_strict_json_schema] at h
  | succ m ih =>
    intro v p r out h p' r'
    cases v with
    | null => simp only [ensure_strict_json_schema] at h; cases h; rfl
    | bool b => simp only [ensure_strict_json_schema] at h; cases h; rfl
    | num k => simp only [ensure_strict_json_schema] at h; cases h; rfl
    | str s => simp only [ensure_strict_json_schema] at h; cases h; rfl
    | arr xs => simp only [ensure_strict_json_schema] at h; cases h; rfl
    | obj fs =>
      rw [ensure_succ_obj] at h
      cases href : lookupKey "$ref" fs with
      | none =>
        rw [href] at h
        simp only [] at h
        cases hn : normalizeFields
            (fun v => ensure_strict_json_schema m v p r) fs with
        | error e => rw [hn] at h; cases h
        | ok fsn =>
          rw [hn] at h
          simp only [] at h
          cases h
          rw [ensure_succ_obj]
          rcases normalizeFields_post _ fs fsn hn with
            ⟨hrefp, hd1, hd2, hobj, harr, hany, hall⟩
          rw [hrefp, href]
          simp only []
          have hfix : normalizeFields
              (fun v => ensure_strict_json_schema m v p' r') fsn = .ok fsn := by
            apply normalizeFields_fixed
            · intro dfs hdl q hq
              rcases hd1 dfs hdl q hq with ⟨u, hu⟩
              exact ih u p r q.2 hu p' r'
            · intro dfs hdl q hq
              rcases hd2 dfs hdl q hq with ⟨u, hu⟩
              exact ih u p r q.2 hu p' r'
            · intro hs
              refine ⟨?_, (hobj hs).2.1, (hobj hs).2.2⟩
              intro pf hpl q hq
              rcases (hobj hs).1 pf hpl q hq with ⟨u, hu⟩
              exact ih u p r q.2 hu p' r'
            · intro hs1 hs2 w hwl
              rcases harr hs1 hs2 w hwl with ⟨u, hu⟩
              exact ih u p r w hu p' r'
            · intro hs1 hs2 xs hxl x hx
              rcases hany hs1 hs2 xs hxl x hx with ⟨u, hu⟩
              exact ih u p r x hu p' r'
            · intro hs1 hs2 hs3 xs hxl x hx
              rcases hall hs1 hs2 hs3 xs hxl x hx with ⟨u, hu⟩
              exact ih u p r x hu p' r'
          rw [hfix]
      | some rv =>
        cases rv with
        | str ref =>
          rw [href] at h
          simp only [] at h
          cases hk : has_more_than_n_keys fs 1 with
          | false =>
            rw [hk] at h
            simp only [Bool.false_eq_true, if_false] at h
            cases h
            rw [ensure_succ_obj, href]
            simp only [hk, Bool.false_eq_true, if_false]
          | true =>
            rw [hk] at h
            simp only [if_true] at h
            cases hres : resolve_ref r ref with
            | error e => rw [hres] at h; cases h
            | ok tgt =>
              cases tgt with
              | obj rfs =>
                rw [hres] at h
                simp only [] at h
                exact ensure_mono m out p' r' out (ih _ p r out h p' r')
              | null => rw [hres] at h; cases h
              | bool b => rw [hres] at h; cases h
              | num k => rw [hres] at h; cases h
              | str s => rw [hres] at h; cases h
              | arr xs => rw [hres] at h; cases h
        | null => rw [href] at h; simp only [] at h; cases h
        | bool b => rw [href] at h; simp only [] at h; cases h
        | num k => rw [href] at h; simp only [] at h; cases h
        | arr xs => rw [href] at h; simp only [] at h; cases h
        | obj gs => rw [href] at h; simp only [] at h; cases h

theorem stringEntries_map_str (l : List String) :
    stringEntries (l.map JValue.str) = some l := by
  induction l with
  | nil => rfl
  | cons s rest ih => simp [stringEntries, ih]

theorem eqAsSets_self (l : List String) : eqAsSets l l = true := by
  unfold eqAsSets
  rw [Bool.and_eq_true]
  constructor <;>
  · rw [List.all_eq_true]
    intro x hx
    exact List.elem_eq_true_of_mem hx

theorem schemaInv_mono (L : JFields → Bool) :
    ∀ (n : Nat) (v : JValue), schemaInv L n v = true → schemaInv L (n + 1) v = true := by
  intro n
  induction n with
  | zero => intro v h; simp [schemaInv] at h
  | succ m ih =>
    intro v h
    cases v with
    | obj fs =>
      simp only [schemaInv, Bool.and_eq_true, List.all_eq_true] at h ⊢
      exact ⟨h.1, fun c hc => ih c (h.2 c hc)⟩
    | null => rfl
    | bool b => rfl
    | num k => rfl
    | str s => rfl
    | arr xs => rfl

theorem schemaInv_le (L : JFields → Bool) (n g : Nat) (hng : n ≤ g) (v : JValue)
    (h : schemaInv L n v = true) : schemaInv L g v = true := by
  induction g with
  | zero =>
    have : n = 0 := Nat.le_zero.mp hng
    subst this
    exact h
  | succ m ih =>
    rcases Nat.lt_or_ge n (m + 1) with hlt | hge
    · exact schemaInv_mono L m v (ih (Nat.lt_succ_iff.mp hlt))
    · have : n = m + 1 := Nat.le_antisymm hng hge
      subst this
      exact h

theorem nodeChildren_output (f : JValue → Except NormError JValue) (fs fsn : JFields)
    (h : normalizeFields f fs = .ok fsn) :
    ∀ c ∈ nodeChildren fsn, ∃ v, f v = .ok c := by
  rcases normalizeFields_post f fs fsn h with
    ⟨hrefp, hd1, hd2, hobj, harr, hany, hall⟩
  intro c hc
  unfold nodeChildren at hc
  cases hr : (lookupKey "$ref" fsn).isSome with
  | true => rw [hr] at hc; simp at hc
  | false =>
    rw [hr] at hc
    simp only [Bool.false_eq_true, if_false] at hc
    rcases List.mem_append.mp hc with hc' | hbranch
    · rcases List.mem_append.mp hc' with hdef | hdef2
      · unfold defsChildren at hdef
        cases hdl : asObj (lookupKey "definitions" fsn) with
        | none => rw [hdl] at hdef; simp at hdef
        | some dfs =>
          rw [hdl] at hdef
          simp only [] at hdef
          rcases List.mem_map.mp hdef with ⟨q, hq, hqc⟩
          rcases hd1 dfs hdl q hq with ⟨v, hv⟩
          exact ⟨v, by rw [hv, hqc]⟩
      · unfold defsChildren at hdef2
        cases hdl : asObj (lookupKey "$defs" fsn) with
        | none => rw [hdl] at hdef2; simp at hdef2
        | some dfs =>
          rw [hdl] at hdef2
          simp only [] at hdef2
          rcases List.mem_map.mp hdef2 with ⟨q, hq, hqc⟩
          rcases hd2 dfs hdl q hq with ⟨v, hv⟩
          exact ⟨v, by rw [hv, hqc]⟩
    · unfold branchChildren at hbranch
      cases ho : isObjectShaped fsn with
      | true =>
        rw [ho] at hbranch
        simp only [if_true] at hbranch
        unfold propsChildren at hbranch
        cases hpl : asObj (lookupKey "properties" fsn) with
        | none => rw [hpl] at hbranch; simp at hbranch
        | some pf =>
          rw [hpl] at hbranch
          simp only [] at hbranch
          rcases List.mem_map.mp hbranch with ⟨q, hq, hqc⟩
          rcases (hobj ho).1 pf hpl q hq with ⟨v, hv⟩
          exact ⟨v, by rw [hv, hqc]⟩
      | false =>
        rw [ho] at hbranch
        simp only [Bool.false_eq_true, if_false] at hbranch
        cases ha : isArrayShaped fsn with
        | true =>
          rw [ha] at hbranch
          simp only [if_true] at hbranch
          unfold itemsChildren at hbranch
          cases hil : lookupKey "items" fsn with
          | none => rw [hil] at hbranch; simp at hbranch
          | some v' =>
            rw [hil] at hbranch
            simp only [List.mem_singleton] at hbranch
            subst hbranch
            exact harr ho ha c hil
        | false =>
          rw [ha] at hbranch
          simp only [Bool.false_eq_true, if_false] at hbranch
          cases hy : (lookupKey "anyOf" fsn).isSome with
          | true =>
            rw [hy] at hbranch
            simp only [if_true] at hbranch
            unfold listChildren at hbranch
            cases hxl : asArr (lookupKey "anyOf" fsn) with
            | none => rw [hxl] at hbranch; simp at hbranch
            | some xs =>
              rw [hxl] at hbranch
              simp only [] at hbranch
              exact hany ho ha xs hxl c hbranch
          | false =>
            rw [hy] at hbranch
            simp only [Bool.false_eq_true, if_false] at hbranch
            cases hw : (lookupKey "allOf" fsn).isSome with
            | true =>
              rw [hw] at hbranch
              simp only [if_true] at hbranch
              unfold listChildren at hbranch
              cases hxl : asArr (lookupKey "allOf" fsn) with
              | none => rw [hxl] at hbranch; simp at hbranch
              | some xs =>
                rw [hxl] at hbranch
                simp only [] at hbranch
                exact hall ho ha hy xs hxl c hbranch
            | false =>
              rw [hw] at hbranch
              simp only [Bool.false_eq_true, if_false] at hbranch
              simp at hbranch

theorem requiredLocalOk_output (f : JValue → Except NormError JValue) (fs fsn : JFields)
    (h : normalizeFields f fs = .ok fsn) : requiredLocalOk fsn = true := by
  unfold requiredLocalOk
  cases ho : isObjectShaped fsn with
  | false => rfl
  | true =>
    simp only [Bool.not_true, Bool.false_or]
    rcases (normalizeFields_post f fs fsn h).2.2.2.1 ho with ⟨hv1, hreq, hv3⟩
    unfold requiredMatchesProps
    rw [hreq]
    simp only []
    rw [stringEntries_map_str]
    simp only []
    exact eqAsSets_self _

theorem apLocalOk_output (f : JValue → Except NormError JValue) (fs fsn : JFields)
    (h : normalizeFields f fs = .ok fsn) : apLocalOk fsn = true := by
  unfold apLocalOk
  cases ho : isObjectShaped fsn with
  | false => rfl
  | true =>
    simp only [Bool.not_true, Bool.false_or]
    exact ((normalizeFields_post f fs fsn h).2.2.2.1 ho).2.2

theorem ensure_schemaInv (L : JFields → Bool)
    (hout : ∀ (f : JValue → Except NormError JValue) (fs fsn : JFields),
        normalizeFields f fs = .ok fsn → L fsn = true) :
    ∀ (n : Nat) (v : JValue) (p : List String) (r : JValue) (out : JValue),
      ensure_strict_json_schema n v p r = .ok out → schemaInv L n out = true := by
  intro n
  induction n with
  | zero =>
    intro v p r out h
    simp [ensure_strict_json_schema] at h
  | succ m ih =>
    intro v p r out h
    cases v with
    | null => simp only [ensure_strict_json_schema] at h; cases h; rfl
    | bool b => simp only [ensure_strict_json_schema] at h; cases h; rfl
    | num k => simp only [ensure_strict_json_schema] at h; cases h; rfl
    | str s => simp only [ensure_strict_json_schema] at h; cases h; rfl
    | arr xs => simp only [ensure_strict_json_schema] at h; cases h; rfl
    | obj fs =>
      rw [ensure_succ_obj] at h
      cases href : lookupKey "$ref" fs with
      | none =>
        rw [href] at h
        simp only [] at h
        cases hn : normalizeFields
            (fun v => ensure_strict_json_schema m v p r) fs with
        | error e => rw [hn] at h; cases h
        | ok fsn =>
          rw [hn] at h
          simp only [] at h
          cases h
          have hrefn : lookupKey "$ref" fsn = none := by
            rw [(normalizeFields_post _ fs fsn hn).1, href]
          simp only [schemaInv, hrefn, Option.isSome_none, Bool.false_eq_true,
            if_false, Bool.and_eq_true, List.all_eq_true]
          constructor
          · exact hout _ fs fsn hn
          · intro c hc
            rcases nodeChildren_output _ fs fsn hn c hc with ⟨u, hu⟩
            exact ih u p r c hu
      | some rv =>
        cases rv with
        | str ref =>
          rw [href] at h
          simp only [] at h
          cases hk : has_more_than_n_keys fs 1 with
          | false =>
            rw [hk] at h
            simp only [Bool.false_eq_true, if_false] at h
            cases h
            simp [schemaInv, href, nodeChildren]
          | true =>
            rw [hk] at h
            simp only [if_true] at h
            cases hres : resolve_ref r ref with
            | error e => rw [hres] at h; cases h
            | ok tgt =>
              cases tgt with
              | obj rfs =>
                rw [hres] at h
                simp only [] at h
                exact schemaInv_mono L m out (ih _ p r out h)
              | null => rw [hres] at h; cases h
              | bool b => rw [hres] at h; cases h
              | num k => rw [hres] at h; cases h
              | str s => rw [hres] at h; cases h
              | arr xs => rw [hres] at h; cases h
        | null => rw [href] at h; simp only [] at h; cases h
        | bool b => rw [href] at h; simp only [] at h; cases h
        | num k => rw [href] at h; simp only [] at h; cases h
        | arr xs => rw [href] at h; simp only [] at h; cases h
        | obj gs => rw [href] at h; simp only [] at h; cases h

theorem normalizeFields_ap (f : JValue → Except NormError JValue) (fs fsn : JFields)
    (h : normalizeFields f fs = .ok fsn) :
    (∀ x, lookupKey "additionalProperties" fs = some x →
        lookupKey "additionalProperties" fsn = some x)
  ∧ (lookupKey "additionalProperties" fs = none → isObjectShaped fs = true →
        lookupKey "additionalProperties" fsn = some (.bool false)) := by
  rcases normalizeFields_cases f fs fsn h with ⟨fs2, fs3, h2, h3, hbr⟩
  have fr2 := normDefsKey_frame f "definitions" fs fs2 h2
  have fr3 := normDefsKey_frame f "$defs" fs2 fs3 h3
  have hap3 : lookupKey "additionalProperties" fs3 =
      lookupKey "additionalProperties" fs := by
    rw [fr3 "additionalProperties" (by decide), fr2 "additionalProperties" (by decide)]
  have ht3 : lookupKey "type" fs3 = lookupKey "type" fs := by
    rw [fr3 "type" (by decide), fr2 "type" (by decide)]
  have hp3 : lookupKey "properties" fs3 = lookupKey "properties" fs := by
    rw [fr3 "properties" (by decide), fr2 "properties" (by decide)]
  have hshape3 : isObjectShaped fs3 = isObjectShaped fs :=
    isObjectShaped_congr fs3 fs ht3 (by rw [hp3])
  rcases hbr with ⟨ho, fs4, h4, hfs'⟩ | ⟨ho, ha, hit⟩ | ⟨ho, ha, hy, hln⟩ |
    ⟨ho, ha, hy, hw, hln⟩ | ⟨ho, ha, hy, hw, hfs'⟩
  · subst hfs'
    have hap4 : lookupKey "additionalProperties" fs4 =
        lookupKey "additionalProperties" fs := by
      rw [normPropsKey_frame f fs3 fs4 h4 "additionalProperties" (by decide) (by decide),
        hap3]
    constructor
    · intro x hx
      rw [ensureAdditionalProperties_lookup fs4, hap4, hx]
    · intro hnone _
      rw [ensureAdditionalProperties_lookup fs4, hap4, hnone]
  · have hapn : lookupKey "additionalProperties" fsn =
        lookupKey "additionalProperties" fs := by
      rw [normItemsKey_frame f fs3 fsn hit "additionalProperties" (by decide), hap3]
    constructor
    · intro x hx
      rw [hapn, hx]
    · intro _ hcon
      rw [← hshape3, ho] at hcon
      cases hcon
  · have hapn : lookupKey "additionalProperties" fsn =
        lookupKey "additionalProperties" fs := by
      rw [normListKey_frame f "anyOf" fs3 fsn hln "additionalProperties" (by decide), hap3]
    constructor
    · intro x hx
      rw [hapn, hx]
    · intro _ hcon
      rw [← hshape3, ho] at hcon
      cases hcon
  · have hapn : lookupKey "additionalProperties" fsn =
        lookupKey "additionalProperties" fs := by
      rw [normListKey_frame f "allOf" fs3 fsn hln "additionalProperties" (by decide), hap3]
    constructor
    · intro x hx
      rw [hapn, hx]
    · intro _ hcon
      rw [← hshape3, ho] at hcon
      cases hcon
  · subst hfs'
    constructor
    · intro x hx
      rw [hap3, hx]
    · intro _ hcon
      rw [← hshape3, ho] at hcon
      cases hcon

theorem templatedLoop_opts (prompt : Prompt) (common : GenRequest)
    (strategyArg : StrategyArg) :
    ∀ (insts : List PromptTemplateInputInstance) (out : List JFields),
      templatedLoop prompt common strategyArg insts = .ok out →
      ∀ inst ∈ insts, inst.instance_request_options ≠ none := by
  intro insts
  induction insts with
  | nil => intro out h inst hm; simp at hm
  | cons i rest ih =>
    intro out h inst hm
    unfold templatedLoop at h
    cases hh : handle_prompt prompt common i with
    | error e => rw [hh] at h; cases h
    | ok body =>
      rw [hh] at h
      simp only [] at h
      cases hs : splatOptions common.fields i.instance_request_options with
      | error e => rw [hs] at h; cases h
      | ok merged =>
        rw [hs] at h
        simp only [] at h
        cases ha : BatchJobManager.add i.id merged strategyArg with
        | error e => rw [ha] at h; cases h
        | ok record =>
          rw [ha] at h
          simp only [] at h
          cases hr : templatedLoop prompt common strategyArg rest with
          | error e => rw [hr] at h; cases h
          | ok records =>
            rcases List.mem_cons.mp hm with hm | hm
            · subst hm
              intro hnone
              rw [hnone] at hs
              unfold splatOptions at hs
              cases hs
            · exact ih records hr inst hm

theorem embeddingLoop_opts (common : JFields) :
    ∀ (insts : List EmbeddingInputInstance) (out : List JFields),
      embeddingLoop common insts = .ok out →
      ∀ inst ∈ insts, inst.instance_request_options ≠ none := by
  intro insts
  induction insts with
  | nil => intro out h inst hm; simp at hm
  | cons i rest ih =>
    intro out h inst hm
    unfold embeddingLoop at h
    cases hs : splatOptions common i.instance_request_options with
    | error e => rw [hs] at h; cases h
    | ok merged =>
      rw [hs] at h
      simp only [] at h
      cases hr : embeddingLoop common rest with
      | error e => rw [hr] at h; cases h
      | ok records =>
        rcases List.mem_cons.mp hm with hm | hm
        · subst hm
          intro hnone
          rw [hnone] at hs
          unfold splatOptions at hs
          cases hs
        · exact ih records hr inst hm

/-- C1: Required-completeness. For every successful normalization, every
object-shaped node of the output document reachable along the normalizer's own
traversal, which includes nodes nested inside properties maps, anyOf and allOf
branch lists, items values, and definitions and dollar-defs maps, carries a
required key whose entries are strings equal, as a set, to the key set of that
node's properties map; the invariant holds at the checker's depth bound equal to
the run's fuel and at every larger bound. -/
theorem required_completeness_invariant (fuel : Nat) (doc : JValue)
    (path : List String) (root out : JValue)
    (h : ensure_strict_json_schema fuel doc path root = .ok out) :
    ∀ g, fuel ≤ g → requiredInv g out = true := by
  intro g hg
  exact schemaInv_le requiredLocalOk fuel g hg out
    (ensure_schemaInv requiredLocalOk
      (fun f fs fsn hn => requiredLocalOk_output f fs fsn hn)
      fuel doc path root out h)

/-- Witness for C1 at a concrete two-property object schema. -/
theorem required_completeness_invariant_witness : requiredInv 5 reqDocOut = true :=
  required_completeness_invariant 5 reqDoc [] reqDoc reqDocOut (by rfl) 5 (Nat.le_refl 5)

/-- C2: Closed-by-default with author override preserved. For every successful
normalization, every object-shaped node of the output reachable along the
normalizer's traversal carries an additionalProperties key; moreover, at the node
the call is applied to (and hence, by the recursive nature of the normalizer, at
every node a recursive call is applied to), an explicitly set additionalProperties
value is preserved unchanged, and an absent one on an object-shaped non-reference
node becomes the explicit value false. -/
theorem closed_by_default_and_author_override (fuel : Nat) (doc : JValue)
    (path : List String) (root out : JValue)
    (h : ensure_strict_json_schema fuel doc path root = .ok out) :
    (∀ g, fuel ≤ g → apInv g out = true)
  ∧ (∀ fs, doc = .obj fs → lookupKey "$ref" fs = none →
      (∀ x, lookupKey "additionalProperties" fs = some x →
          oLookup "additionalProperties" out = some x)
    ∧ (lookupKey "additionalProperties" fs = none → isObjectShaped fs = true →
          oLookup "additionalProperties" out = some (.bool false))) := by
  constructor
  · intro g hg
    exact schemaInv_le apLocalOk fuel g hg out
      (ensure_schemaInv apLocalOk (fun f fs fsn hn => apLocalOk_output f fs fsn hn)
        fuel doc path root out h)
  · intro fs hdoc href
    subst hdoc
    cases fuel with
    | zero => simp [ensure_strict_json_schema] at h
    | succ m =>
      rw [ensure_succ_obj, href] at h
      simp only [] at h
      cases hn : normalizeFields
          (fun v => ensure_strict_json_schema m v path root) fs with
      | error e => rw [hn] at h; cases h
      | ok fsn =>
        rw [hn] at h
        simp only [] at h
        cases h
        exact normalizeFields_ap _ fs fsn hn

/-- Witness for C2 at a concrete object schema that explicitly sets
additionalProperties to true: the invariant holds on the output and the author's
value true is preserved. -/
theorem closed_by_default_and_author_override_witness :
    apInv 5 apDocOut = true ∧
      oLookup "additionalProperties" apDocOut = some (.bool true) := by
  have happ := closed_by_default_and_author_override 5 (.obj apDocFields) []
    (.obj apDocFields) apDocOut (by rfl)
  exact ⟨happ.1 5 (Nat.le_refl 5),
    (happ.2 apDocFields rfl (by rfl)).1 (.bool true) (by rfl)⟩

/-- C3: Reference unrolling. Normalizing a node holding a reference to the User
definition plus a sibling description against the given root yields exactly the
inlined object: no ref key, type object, the description preserved, the name
property of type string, required exactly the name key, and additionalProperties
false. -/
theorem reference_unrolling :
    ensure_strict_json_schema 10 unrollNode [] unrollRoot = .ok unrollOut
  ∧ oLookup "$ref" unrollOut = none
  ∧ oLookup "type" unrollOut = some (.str "object")
  ∧ oLookup "description" unrollOut = some (.str "the user")
  ∧ oLookup "properties" unrollOut =
      some (.obj [("name", .obj [("type", .str "string")])])
  ∧ oLookup "required" unrollOut = some (.arr [.str "name"])
  ∧ oLookup "additionalProperties" unrollOut = some (.bool false) :=
  ⟨rfl, rfl, rfl, rfl, rfl, rfl, rfl⟩

/-- C4: Idempotence. Whenever normalization of a document against itself as root
succeeds, normalizing the result against itself as root, with the same fuel budget,
returns the result unchanged. -/
theorem normalize_idempotent (fuel : Nat) (doc out : JValue)
    (h : ensure_strict_json_schema fuel doc [] doc = .ok out) :
    ensure_strict_json_schema fuel out [] out = .ok out :=
  ensure_stable fuel doc [] doc out h [] out

/-- Witness for C4 at a concrete document with a bare reference and a definitions
container. -/
theorem normalize_idempotent_witness :
    ensure_strict_json_schema 10 idemDocOut [] idemDocOut = .ok idemDocOut :=
  normalize_idempotent 10 idemDoc idemDocOut (by rfl)

/-- C5: allOf branch independence. For a node the dispatch resolves to the allOf
branch, the output keeps an allOf key holding a list of the same length in the same
order whose entries are exactly the normalizations of the corresponding input
entries; the branches are not merged, and this holds for every list length
including a single-element list. -/
theorem allOf_branch_independence (m : Nat) (fs : JFields) (xs : List JValue)
    (p : List String) (r out : JValue)
    (href : lookupKey "$ref" fs = none)
    (hobj : isObjectShaped fs = false)
    (harr : isArrayShaped fs = false)
    (hany : lookupKey "anyOf" fs = none)
    (hall : lookupKey "allOf" fs = some (.arr xs))
    (h : ensure_strict_json_schema (m + 1) (.obj fs) p r = .ok out) :
    ∃ ys, oLookup "allOf" out = some (.arr ys) ∧ ys.length = xs.length ∧
      ∀ (i : Nat) (hx : i < xs.length) (hy : i < ys.length),
        ensure_strict_json_schema m (xs.get ⟨i, hx⟩) p r = .ok (ys.get ⟨i, hy⟩) := by
  rw [ensure_succ_obj, href] at h
  simp only [] at h
  cases hn : normalizeFields (fun v => ensure_strict_json_schema m v p r) fs with
  | error e => rw [hn] at h; cases h
  | ok fsn =>
    rw [hn] at h
    simp only [] at h
    cases h
    rcases normalizeFields_cases _ fs fsn hn with ⟨fs2, fs3, h2, h3, hbr⟩
    have fr2 := normDefsKey_frame _ "definitions" fs fs2 h2
    have fr3 := normDefsKey_frame _ "$defs" fs2 fs3 h3
    have ht3 : lookupKey "type" fs3 = lookupKey "type" fs := by
      rw [fr3 "type" (by decide), fr2 "type" (by decide)]
    have hp3 : lookupKey "properties" fs3 = lookupKey "properties" fs := by
      rw [fr3 "properties" (by decide), fr2 "properties" (by decide)]
    have hi3 : lookupKey "items" fs3 = lookupKey "items" fs := by
      rw [fr3 "items" (by decide), fr2 "items" (by decide)]
    have hy3 : lookupKey "anyOf" fs3 = lookupKey "anyOf" fs := by
      rw [fr3 "anyOf" (by decide), fr2 "anyOf" (by decide)]
    have hw3 : lookupKey "allOf" fs3 = some (.arr xs) := by
      rw [fr3 "allOf" (by decide), fr2 "allOf" (by decide), hall]
    have ho3 : isObjectShaped fs3 = false := by
      rw [isObjectShaped_congr fs3 fs ht3 (by rw [hp3])]
      exact hobj
    have ha3 : isArrayShaped fs3 = false := by
      rw [isArrayShaped_congr fs3 fs ht3 (by rw [hi3])]
      exact harr
    have hy3' : (lookupKey "anyOf" fs3).isSome = false := by rw [hy3, hany]; rfl
    rcases hbr with ⟨ho, _⟩ | ⟨_, ha, _⟩ | ⟨_, _, hy, _⟩ | ⟨_, _, _, _, hln⟩ |
      ⟨_, _, _, hw, _⟩
    · rw [ho3] at ho; cases ho
    · rw [ha3] at ha; cases ha
    · rw [hy3'] at hy; cases hy
    · unfold normListKey at hln
      have hs : asArr (lookupKey "allOf" fs3) = some xs := by rw [hw3]; rfl
      rw [hs] at hln
      simp only [] at hln
      cases hm : exceptMapList (fun v => ensure_strict_json_schema m v p r) xs with
      | error e => rw [hm] at hln; cases hln
      | ok ys =>
        rw [hm] at hln
        simp only [] at hln
        cases hln
        refine ⟨ys, ?_, exceptMapList_length _ xs ys hm, ?_⟩
        · exact lookupKey_setKey_self fs3 _ _
        · intro i hx hyi
          exact exceptMapList_get _ xs ys hm i hx hyi
    · rw [hw3] at hw; simp at hw

/-- Witness for C5 at a concrete single-element allOf node. -/
theorem allOf_branch_independence_witness :
    oLookup "allOf" (.obj (setKey [("allOf", .arr allOfBranches)] "allOf"
        (.arr allOfBranchesOut))) = some (.arr allOfBranchesOut) := by
  rcases allOf_branch_independence 5 allOfFields allOfBranches []
      (.obj allOfFields) (.obj (setKey [("allOf", .arr allOfBranches)] "allOf"
        (.arr allOfBranchesOut)))
      (by rfl) (by rfl) (by rfl) (by rfl) (by rfl) (by rfl) with ⟨ys, hy, hlen, hget⟩
  have hys : (some (.arr allOfBranchesOut) : Option JValue) = some (.arr ys) := by
    rw [← hy]
    rfl
  cases hys
  exact hy

/-- C6: Malformed pointer rejected. For every document root and every reference
string that does not begin with the local-document-pointer prefix, the resolver
fails with a MalformedReference error carrying the offending string, returning no
subtree. -/
theorem malformed_pointer_rejected (root : JValue) (ref : String)
    (h : hasLocalPointerStart ref = false) :
    resolve_ref root ref = .error (.malformedReference ref) := by
  unfold resolve_ref
  unfold hasLocalPointerStart at h
  split
  · next rest heq =>
      rw [heq] at h
      simp at h
  · rfl

/-- Witness for C6 at the concrete reference string missing the prefix. -/
theorem malformed_pointer_rejected_witness :
    resolve_ref (.obj [("definitions", .obj [])]) "definitions/Person" =
      .error (.malformedReference "definitions/Person") :=
  malformed_pointer_rejected (.obj [("definitions", .obj [])]) "definitions/Person"
    (by rfl)

/-- C7: Strict descriptor shape. Whenever structured output is enforced for a
declared output type, the builder stores under the text key, and the responses
request stores on its text field, a format object whose descriptor is exactly the
object with type json_schema, the type's name, the normalized schema document
produced from the type, and strict true. -/
theorem strict_descriptor_shape (fuel : Nat) (b : BatchJobBuilder) (m : PydModel)
    (b' : BatchJobBuilder)
    (h : BatchJobBuilder.enforce_structured_output fuel b m = .ok b') :
    (∃ schema, ensure_strict_json_schema fuel m.jsonSchema [] m.jsonSchema = .ok schema
      ∧ lookupKey "text" b'.body_options =
          some (.obj [("format", outputFormatDescriptor m.name schema)])
      ∧ outputFormatDescriptor m.name schema =
          .obj [("type", .str "json_schema"), ("name", .str m.name),
                ("schema", schema), ("strict", .bool true)])
  ∧ (∀ (r r' : ResponsesRequest),
      ResponsesRequest.set_output_structure fuel r m = .ok r' →
      r'.text = some (.obj [("format",
        .obj [("type", .str "json_schema"), ("name", .str m.name),
              ("schema", (match ensure_strict_json_schema fuel m.jsonSchema []
                  m.jsonSchema with
                | .ok s => s
                | .error _ => .null)), ("strict", .bool true)])])) := by
  constructor
  · unfold BatchJobBuilder.enforce_structured_output at h
    cases hs : ensure_strict_json_schema fuel m.jsonSchema [] m.jsonSchema with
    | error e => rw [hs] at h; cases h
    | ok schema =>
      rw [hs] at h
      simp only [] at h
      cases h
      exact ⟨schema, rfl, lookupKey_setKey_self _ _ _, rfl⟩
  · intro r r' h2
    unfold ResponsesRequest.set_output_structure type_to_json_schema at h2
    cases hs : ensure_strict_json_schema fuel m.jsonSchema [] m.jsonSchema with
    | error e => rw [hs] at h2; cases h2
    | ok schema =>
      rw [hs] at h2
      simp only [] at h2
      cases h2
      simp only [hs]
      rfl

/-- Witness for C7 at a concrete model and builder. -/
theorem strict_descriptor_shape_witness :
    lookupKey "text" userBuilderOut.body_options =
      some (.obj [("format", outputFormatDescriptor "User" userModelSchema)]) := by
  rcases (strict_descriptor_shape 6 userBuilder userModel userBuilderOut
      (by rfl)).1 with ⟨s, hs, ht, _⟩
  have hse : (Except.ok userModelSchema : Except NormError JValue) = .ok s := by
    rw [← hs]
    rfl
  cases hse
  exact ht

/-- C8: Constructing a RequestCollector raises for every input. The constructor
assigns an empty tuple to the chat attribute and then attempts an attribute
assignment on that tuple, so every call fails with an AttributeError and no
collector object is produced. -/
theorem request_collector_init_always_raises (batch_file_path : String) :
    RequestCollector.init batch_file_path =
      .error (.attributeError "tuple object has no attribute completions") := rfl

/-- C9: Missing per-instance options raise. Both manager bulk methods splat each
instance's optional request-options mapping unguarded, so an instance whose options
field is absent (None) makes the method fail with a TypeError, and either method
succeeds only when every instance carries an explicit mapping. -/
theorem instance_options_none_raises :
    (∀ (prompt : Prompt) (common : GenRequest) (inst : PromptTemplateInputInstance)
        (strategyArg : StrategyArg) (body : GenRequest),
        inst.instance_request_options = none →
        handle_prompt prompt common inst = .ok body →
        strategyArg ≠ StrategyArg.strat RequestStrategy.embeddingsAPI →
        strategyArg ≠ StrategyArg.lit "embeddings" →
        BatchJobManager.add_templated_instances prompt common [inst] strategyArg =
          .error (.typeError "argument of type NoneType is not a mapping"))
  ∧ (∀ (common : JFields) (inst : EmbeddingInputInstance),
        inst.instance_request_options = none →
        BatchJobManager.add_embedding_requests [inst] common =
          .error (.typeError "argument of type NoneType is not a mapping"))
  ∧ (∀ (prompt : Prompt) (common : GenRequest)
        (insts : List PromptTemplateInputInstance) (strategyArg : StrategyArg)
        (out : List JFields),
        BatchJobManager.add_templated_instances prompt common insts strategyArg =
          .ok out →
        ∀ inst ∈ insts, inst.instance_request_options ≠ none)
  ∧ (∀ (common : JFields) (insts : List EmbeddingInputInstance) (out : List JFields),
        BatchJobManager.add_embedding_requests insts common = .ok out →
        ∀ inst ∈ insts, inst.instance_request_options ≠ none) := by
  refine ⟨?_, ?_, ?_, ?_⟩
  · intro prompt common inst strategyArg body hnone hh hs1 hs2
    unfold BatchJobManager.add_templated_instances
    rw [if_neg hs1, if_neg hs2]
    unfold templatedLoop
    rw [hh]
    simp only []
    rw [hnone]
    unfold splatOptions
    rfl
  · intro common inst hnone
    unfold BatchJobManager.add_embedding_requests embeddingLoop
    rw [hnone]
    unfold splatOptions
    rfl
  · intro prompt common insts strategyArg out h inst hm
    unfold BatchJobManager.add_templated_instances at h
    by_cases hs1 : strategyArg = StrategyArg.strat RequestStrategy.embeddingsAPI
    · rw [if_pos hs1] at h; cases h
    · rw [if_neg hs1] at h
      by_cases hs2 : strategyArg = StrategyArg.lit "embeddings"
      · rw [if_pos hs2] at h; cases h
      · rw [if_neg hs2] at h
        exact templatedLoop_opts prompt common strategyArg insts out h inst hm
  · intro common insts out h inst hm
    exact embeddingLoop_opts common insts out h inst hm

/-- Witness for C9 at concrete instances whose options field is absent. -/
theorem instance_options_none_raises_witness :
    BatchJobManager.add_templated_instances helloPrompt commonResponsesRequest
        [optlessInstance] (StrategyArg.strat RequestStrategy.responsesAPI) =
      .error (.typeError "argument of type NoneType is not a mapping")
  ∧ BatchJobManager.add_embedding_requests [optlessEmbeddingInstance]
        commonEmbeddingsFields =
      .error (.typeError "argument of type NoneType is not a mapping") :=
  ⟨instance_options_none_raises.1 helloPrompt commonResponsesRequest
      optlessInstance (StrategyArg.strat RequestStrategy.responsesAPI)
      handledRequest rfl (by rfl) (by decide) (by decide),
   instance_options_none_raises.2.1 commonEmbeddingsFields
      optlessEmbeddingInstance rfl⟩

/-- C10: Completions.parse never uses its response_format argument to build the
schema. When response_format is a model type and text_format is left None, the
call fails with the AttributeError from invoking schema generation on None; and
with identical remaining arguments, any two model values of response_format yield
identical results, so the value of response_format has no effect on the request
body. -/
theorem completions_parse_ignores_response_format (fuel : Nat) (c : Completions)
    (custom_id : String) (model : String) (kwargs : JFields) :
    (∀ m : PydModel,
        Completions.parse fuel c custom_id model (some m) none kwargs =
          .error (.attributeError "NoneType object has no attribute model_json_schema"))
  ∧ (∀ (m m' : PydModel) (tf : Option PydModel),
        Completions.parse fuel c custom_id model (some m) tf kwargs =
          Completions.parse fuel c custom_id model (some m') tf kwargs) := by
  constructor
  · intro m
    rfl
  · intro m m' tf
    rfl

